import Mathlib

/-!
# Verification of the Joshoeixi Vape inventory application

Shallow embedding of the server (`src/server/index.js`, called `ServerA`
below, and the second server variant bundled in the unnamed source file,
called `ServerB`) and of the client-side analytics and sale flow from the
unnamed React source file.

JS numbers are embedded as `Option ℚ` (`some q` = a finite value, `none` =
the non-finite values `NaN` / `±Infinity`).  The source only branches on
`Number.isFinite` and on `<` / `===` comparisons whose outcome is only
relevant between finite values, so this collapse is outcome-preserving for
every code path modelled here.  JSON `null` field values are not modelled
(a body field is either absent or carries a value).
-/

namespace Vape

/-- JS numbers: `some q` is a finite value, `none` is NaN or `±Infinity`. -/
abbrev JNum := Option ℚ

/-- A finite JS number. -/
def jfin (q : ℚ) : JNum := some q

/-- `Number.isFinite(x)`. -/
def jIsFinite : JNum → Bool
  | some _ => true
  | none => false

/-- JS `<` on numbers: comparisons involving NaN are false (and the source
only uses the result of `<` between values already checked finite). -/
def jlt : JNum → JNum → Bool
  | some a, some b => decide (a < b)
  | _, _ => false

/-- JS `===` on numbers: `NaN === NaN` is false. -/
def jeqNum : JNum → JNum → Bool
  | some a, some b => a == b
  | _, _ => false

/-- JS `+` on numbers, propagating non-finite inputs. -/
def jadd : JNum → JNum → JNum
  | some a, some b => some (a + b)
  | _, _ => none

/-- JS `-` on numbers, propagating non-finite inputs. -/
def jsub : JNum → JNum → JNum
  | some a, some b => some (a - b)
  | _, _ => none

/-- JS `*` on numbers, propagating non-finite inputs. -/
def jmul : JNum → JNum → JNum
  | some a, some b => some (a * b)
  | _, _ => none

/-- JS `/` on numbers; division by zero gives a non-finite value. -/
def jdiv : JNum → JNum → JNum
  | some a, some b => if b = 0 then none else some (a / b)
  | _, _ => none

/-- `Math.max` on two numbers (`Math.max(x, NaN)` is NaN). -/
def jmax : JNum → JNum → JNum
  | some a, some b => some (max a b)
  | _, _ => none

/-- `Math.max(0, x)`. -/
def jmax0 (x : JNum) : JNum := jmax (jfin 0) x

/-- `Math.round`: Mathlib's `round` rounds halves toward `+∞`, exactly the
JS semantics (`Math.round(-2.5) = -2`). -/
def jround : JNum → JNum
  | some a => some ((round a : ℤ) : ℚ)
  | none => none

/-- JS truthiness of a number: `0` and `NaN` are falsy.  (`±Infinity` is
truthy in JS but collapsed to `none` here; the only truthiness test on a
number in the source is applied to values that are finite on every
reachable state.) -/
def jTruthy : JNum → Bool
  | some q => decide (q ≠ 0)
  | none => false

/-- A stored inventory item.  Every stored item carries all of these
properties: the seed data sets them all and the validator's success record
sets them all. -/
structure Item where
  id : JNum
  name : String
  brand : String
  category : String
  stock : JNum
  rawPrice : JNum
  sellingPrice : JNum
  minStockAlert : JNum
deriving DecidableEq, Repr

/-- The record returned by `validateAndNormalizeItem` on success (the
`item` key).  It never carries an `id`: on create the route attaches a
fresh id, on update the merge keeps the existing one. -/
structure NormItem where
  name : String
  brand : String
  category : String
  stock : JNum
  rawPrice : JNum
  sellingPrice : JNum
  minStockAlert : JNum
deriving DecidableEq, Repr

/-- A request body: each field is absent (`none`) or present.  String
fields hold the value after JS `toString()`; numeric fields hold the value
after `Number(...)` coercion (so a non-numeric string is `some none`,
i.e. present but NaN). -/
structure Body where
  name : Option String
  brand : Option String
  category : Option String
  stock : Option JNum
  rawPrice : Option JNum
  sellingPrice : Option JNum
  price : Option JNum
  minStockAlert : Option JNum
deriving DecidableEq, Repr

/-- The empty body (no fields supplied). -/
def emptyBody : Body :=
  { name := none, brand := none, category := none, stock := none,
    rawPrice := none, sellingPrice := none, price := none,
    minStockAlert := none }

/-- The response record built by `buildItemResponse`: the stored item plus
the derived `profit` and the legacy `price` alias. -/
structure RespItem extends Item where
  profit : JNum
  price : JNum
deriving DecidableEq, Repr

/-- `buildItemResponse` (identical in both server variants): `Number(...)`
on an already numeric field is the identity, `profit = sellingPrice -
rawPrice`, `price = sellingPrice`. -/
def buildItemResponse (item : Item) : RespItem :=
  { item with
    profit := jsub item.sellingPrice item.rawPrice
    price := item.sellingPrice }

/-- `nextId`: `inventory.length ? Math.max(...ids) + 1 : 1`. -/
def nextId (inventory : List Item) : JNum :=
  match inventory.map Item.id with
  | [] => jfin 1
  | x :: xs => jadd (xs.foldl jmax x) (jfin 1)

/-- JS string falsiness for a possibly-undefined string: `undefined` and
`""` are falsy. -/
def strFalsy : Option String → Bool
  | none => true
  | some s => s.isEmpty

/-- `toLowerCase()` (character-wise lowercasing; exact for the ASCII
strings the application handles). -/
def lowerStr (s : String) : String := ⟨s.data.map Char.toLower⟩

/-- `trim()`: strip leading and trailing whitespace. -/
def trimStr (s : String) : String :=
  ⟨((s.data.dropWhile Char.isWhitespace).reverse.dropWhile Char.isWhitespace).reverse⟩

/-! ## ServerA: `src/server/index.js` -/

namespace ServerA

def missingFieldMsg : String := "Name, brand, and category are required."

def invalidNumericMsg : String := "Invalid numeric values."

def missingPriceMsg : String := "Raw price and selling price are required."

/-- `body.name?.toString().trim() ?? currentItem?.name`. -/
def resolvedName (body : Body) (cur : Option Item) : Option String :=
  (body.name.map trimStr) <|> cur.map Item.name

/-- `body.brand?.toString().trim() ?? currentItem?.brand`. -/
def resolvedBrand (body : Body) (cur : Option Item) : Option String :=
  (body.brand.map trimStr) <|> cur.map Item.brand

/-- `body.category?.toString().trim() ?? currentItem?.category`. -/
def resolvedCategory (body : Body) (cur : Option Item) : Option String :=
  (body.category.map trimStr) <|> cur.map Item.category

/-- `toNumber(body.stock ?? currentItem?.stock)`; a fully absent chain is
`Number(undefined) = NaN`. -/
def resolvedStock (body : Body) (cur : Option Item) : JNum :=
  (body.stock).getD ((cur.map Item.stock).getD none)

/-- `toNumber(body.rawPrice ?? currentItem?.rawPrice)`. -/
def resolvedRawPrice (body : Body) (cur : Option Item) : JNum :=
  (body.rawPrice).getD ((cur.map Item.rawPrice).getD none)

/-- `toNumber(body.sellingPrice ?? body.price ?? currentItem?.sellingPrice)`. -/
def resolvedSellingPrice (body : Body) (cur : Option Item) : JNum :=
  (body.sellingPrice <|> body.price).getD ((cur.map Item.sellingPrice).getD none)

/-- `toNumber(body.minStockAlert ?? currentItem?.minStockAlert ?? 10)`. -/
def resolvedMinStockAlert (body : Body) (cur : Option Item) : JNum :=
  (body.minStockAlert).getD ((cur.map Item.minStockAlert).getD (jfin 10))

/-- The combined numeric guard of `validateAndNormalizeItem` in
`src/server/index.js` (note: `minStockAlert` is not inspected). -/
def numbersBad (stock rawPrice sellingPrice : JNum) : Bool :=
  !jIsFinite stock || !jIsFinite rawPrice || !jIsFinite sellingPrice ||
  jlt stock (jfin 0) || jlt rawPrice (jfin 0) || jlt sellingPrice rawPrice

/-- `validateAndNormalizeItem` from `src/server/index.js`. -/
def validateAndNormalizeItem (body : Body) (cur : Option Item) (isCreate : Bool) :
    Except String NormItem :=
  let name := resolvedName body cur
  let brand := resolvedBrand body cur
  let category := resolvedCategory body cur
  if strFalsy name || strFalsy brand || strFalsy category then
    .error missingFieldMsg
  else if numbersBad (resolvedStock body cur) (resolvedRawPrice body cur)
      (resolvedSellingPrice body cur) then
    .error invalidNumericMsg
  else if isCreate && (body.rawPrice.isNone || body.sellingPrice.isNone) then
    .error missingPriceMsg
  else
    .ok { name := name.getD "", brand := brand.getD "", category := category.getD "",
          stock := resolvedStock body cur, rawPrice := resolvedRawPrice body cur,
          sellingPrice := resolvedSellingPrice body cur,
          minStockAlert := resolvedMinStockAlert body cur }

/-- The merge performed by the PUT route:
`inventory[index] = { ...current, ...validation.item }` — the validated
record sets all seven data fields and carries no `id`, so the stored `id`
is kept. -/
def mergeItem (cur : Item) (n : NormItem) : Item :=
  { id := cur.id, name := n.name, brand := n.brand, category := n.category,
    stock := n.stock, rawPrice := n.rawPrice, sellingPrice := n.sellingPrice,
    minStockAlert := n.minStockAlert }

inductive PostResult where
  | badRequest (msg : String)
  | created (resp : RespItem)
deriving DecidableEq, Repr

/-- `POST /api/items`: validate with `isCreate: true` and no current item;
on error respond 400 and leave the store alone, otherwise append
`{ id: nextId(), ...validation.item }` and respond 201 with the shaped
item. -/
def postItem (inventory : List Item) (body : Body) : List Item × PostResult :=
  match validateAndNormalizeItem body none true with
  | .error e => (inventory, .badRequest e)
  | .ok n =>
    let newItem : Item :=
      { id := nextId inventory, name := n.name, brand := n.brand,
        category := n.category, stock := n.stock, rawPrice := n.rawPrice,
        sellingPrice := n.sellingPrice, minStockAlert := n.minStockAlert }
    (inventory ++ [newItem], .created (buildItemResponse newItem))

inductive PutResult where
  | notFound
  | badRequest (msg : String)
  | updated (resp : RespItem)
deriving DecidableEq, Repr

/-- `PUT /api/items/:id`: find the first item whose id `===` the coerced
path parameter; 404 if none, 400 (store untouched) if validation fails,
otherwise replace the record in place with the merge and respond with the
shaped result. -/
def putItem : List Item → JNum → Body → List Item × PutResult
  | [], _, _ => ([], .notFound)
  | item :: rest, pid, body =>
    if jeqNum item.id pid then
      match validateAndNormalizeItem body (some item) false with
      | .error e => (item :: rest, .badRequest e)
      | .ok n =>
        (mergeItem item n :: rest, .updated (buildItemResponse (mergeItem item n)))
    else
      let tail := putItem rest pid body
      (item :: tail.1, tail.2)

inductive DeleteResult where
  | noContent
  | notFound
deriving DecidableEq, Repr

/-- `DELETE /api/items/:id`: filter out the id, then compare lengths to
decide between 204 and 404. -/
def deleteItem (inventory : List Item) (pid : JNum) : List Item × DeleteResult :=
  let remaining := inventory.filter fun item => !(jeqNum item.id pid)
  if remaining.length = inventory.length then (remaining, .notFound)
  else (remaining, .noContent)

/-- `String.prototype.includes`. -/
def includesStr (s pat : String) : Bool := decide (pat.toList <:+: s.toList)

/-- `GET /api/items`: lower-case the query (`req.query.q || ''`, an absent
parameter is the empty string); an empty (falsy) query returns the whole
inventory, otherwise keep the items one of whose three fields contains the
query after lower-casing. -/
def searchItems (inventory : List Item) (q0 : String) : List Item :=
  let q := lowerStr q0
  if q.isEmpty then inventory
  else
    inventory.filter fun item =>
      includesStr (lowerStr item.name) q || includesStr (lowerStr item.brand) q ||
        includesStr (lowerStr item.category) q

/-- The seed inventory of `src/server/index.js`. -/
def seedInventory : List Item :=
  [ { id := jfin 1, name := "Strawberry Milk 60ml", brand := "Cloudy Co.",
      category := "E-Liquid", stock := jfin 24, rawPrice := jfin 280,
      sellingPrice := jfin 450, minStockAlert := jfin 10 },
    { id := jfin 2, name := "Mint Freeze Disposable", brand := "VapeX",
      category := "Disposable", stock := jfin 15, rawPrice := jfin 230,
      sellingPrice := jfin 380, minStockAlert := jfin 8 },
    { id := jfin 3, name := "Mesh Coil 0.8Ω", brand := "SmokeLab",
      category := "Coils", stock := jfin 40, rawPrice := jfin 120,
      sellingPrice := jfin 220, minStockAlert := jfin 15 },
    { id := jfin 4, name := "Pod Cartridge 2ml", brand := "VapeX",
      category := "Pods", stock := jfin 28, rawPrice := jfin 95,
      sellingPrice := jfin 180, minStockAlert := jfin 12 },
    { id := jfin 5, name := "Battery 18650 3000mAh", brand := "PowerLeaf",
      category := "Accessories", stock := jfin 12, rawPrice := jfin 340,
      sellingPrice := jfin 520, minStockAlert := jfin 6 } ]

/-- One client-visible server request (GET does not mutate the store). -/
inductive ServerOp where
  | post (body : Body)
  | put (pid : JNum) (body : Body)
  | del (pid : JNum)
  | get (q : String)

/-- The store after handling one request. -/
def applyOp (inventory : List Item) : ServerOp → List Item
  | .post body => (postItem inventory body).1
  | .put pid body => (putItem inventory pid body).1
  | .del pid => (deleteItem inventory pid).1
  | .get _ => inventory

/-- Store states reachable from the seed data through the HTTP API. -/
inductive Reachable : List Item → Prop where
  | seed : Reachable seedInventory
  | step (op : ServerOp) {inv : List Item} :
      Reachable inv → Reachable (applyOp inv op)

end ServerA

/-! ## ServerB: the server variant bundled in the unnamed source file -/

namespace ServerB

def missingFieldMsg : String := "Name, brand, and category are required."

def stockMsg : String := "Stock must be a valid non-negative number."

def rawPriceMsg : String := "Raw price must be a valid non-negative number."

def sellingPriceMsg : String := "Selling price must be a valid non-negative number."

def inversionMsg : String := "Selling price must be greater than or equal to raw price."

def minStockAlertMsg : String := "Minimum stock alert must be a valid non-negative number."

def missingPriceMsg : String := "Raw price and selling price are required."

/-- `body.name !== undefined ? body.name.toString().trim() : currentItem?.name`. -/
def resolvedName (body : Body) (cur : Option Item) : Option String :=
  (body.name.map trimStr) <|> cur.map Item.name

def resolvedBrand (body : Body) (cur : Option Item) : Option String :=
  (body.brand.map trimStr) <|> cur.map Item.brand

def resolvedCategory (body : Body) (cur : Option Item) : Option String :=
  (body.category.map trimStr) <|> cur.map Item.category

/-- `stockSource = body.stock !== undefined ? body.stock : currentItem?.stock`,
then `toNumber` (an absent chain is NaN). -/
def resolvedStock (body : Body) (cur : Option Item) : JNum :=
  (body.stock).getD ((cur.map Item.stock).getD none)

def resolvedRawPrice (body : Body) (cur : Option Item) : JNum :=
  (body.rawPrice).getD ((cur.map Item.rawPrice).getD none)

/-- `body.sellingPrice`, else `body.price`, else `currentItem?.sellingPrice`. -/
def resolvedSellingPrice (body : Body) (cur : Option Item) : JNum :=
  (body.sellingPrice <|> body.price).getD ((cur.map Item.sellingPrice).getD none)

/-- `body.minStockAlert !== undefined ? body.minStockAlert :
currentItem?.minStockAlert ?? 10`. -/
def resolvedMinStockAlert (body : Body) (cur : Option Item) : JNum :=
  (body.minStockAlert).getD ((cur.map Item.minStockAlert).getD (jfin 10))

/-- `validateAndNormalizeItem` from the unnamed source file's server:
per-field checks with dedicated messages, a dedicated price-inversion
message, a `minStockAlert` check, and a create-price check satisfied by
the `price` alias. -/
def validateAndNormalizeItem (body : Body) (cur : Option Item) (isCreate : Bool) :
    Except String NormItem :=
  let name := resolvedName body cur
  let brand := resolvedBrand body cur
  let category := resolvedCategory body cur
  if strFalsy name || strFalsy brand || strFalsy category then
    .error missingFieldMsg
  else
    let stock := resolvedStock body cur
    let rawPrice := resolvedRawPrice body cur
    let sellingPrice := resolvedSellingPrice body cur
    let minStockAlert := resolvedMinStockAlert body cur
    if !jIsFinite stock || jlt stock (jfin 0) then
      .error stockMsg
    else if !jIsFinite rawPrice || jlt rawPrice (jfin 0) then
      .error rawPriceMsg
    else if !jIsFinite sellingPrice || jlt sellingPrice (jfin 0) then
      .error sellingPriceMsg
    else if jlt sellingPrice rawPrice then
      .error inversionMsg
    else if !jIsFinite minStockAlert || jlt minStockAlert (jfin 0) then
      .error minStockAlertMsg
    else if isCreate && (body.rawPrice.isNone ||
        (body.sellingPrice.isNone && body.price.isNone)) then
      .error missingPriceMsg
    else
      .ok { name := name.getD "", brand := brand.getD "",
            category := category.getD "", stock := stock, rawPrice := rawPrice,
            sellingPrice := sellingPrice, minStockAlert := minStockAlert }

/-- `GET /api/items` of this variant: the query is trimmed before
lower-casing (`(req.query.q || '').toString().trim().toLowerCase()`), a
falsy (empty) trimmed query returns the whole inventory, otherwise the
items one of whose three lower-cased fields contains the trimmed query
(same `String.prototype.includes` as the other variant). -/
def searchItems (inventory : List Item) (q0 : String) : List Item :=
  let query := lowerStr (trimStr q0)
  if query.isEmpty then inventory
  else
    inventory.filter fun item =>
      ServerA.includesStr (lowerStr item.name) query ||
        ServerA.includesStr (lowerStr item.brand) query ||
        ServerA.includesStr (lowerStr item.category) query

end ServerB

/-! ## Client: analytics and transaction flow from the unnamed React file -/

namespace Client

/-- JS `<=` on numbers: comparisons involving NaN are false. -/
def jle : JNum → JNum → Bool
  | some a, some b => decide (a ≤ b)
  | _, _ => false

/-- A client-side item as fetched from the server.  The accessor helpers
tolerate absent `rawPrice` / `sellingPrice` / `price` / `minStockAlert`
properties, so those are optional here; `id`, the strings and `stock` are
always present on server-shaped data. -/
structure CItem where
  id : JNum
  name : String
  brand : String
  category : String
  stock : JNum
  rawPrice : Option JNum
  sellingPrice : Option JNum
  price : Option JNum
  minStockAlert : Option JNum
deriving DecidableEq, Repr

/-- `Number(item.rawPrice ?? 0)`. -/
def rawPriceOf (it : CItem) : JNum := it.rawPrice.getD (jfin 0)

/-- `Number(item.sellingPrice ?? item.price ?? 0)`. -/
def sellingPriceOf (it : CItem) : JNum :=
  (it.sellingPrice <|> it.price).getD (jfin 0)

/-- `Number(item.minStockAlert ?? 10)`. -/
def minStockAlertOf (it : CItem) : JNum := it.minStockAlert.getD (jfin 10)

/-- `chartPalette`. -/
def chartPalette : List String :=
  ["#561C24", "#6D2932", "#8B3A44", "#a05060", "#C7B7A3", "#3a1a20"]

/-- `item.category || 'Uncategorized'` (the empty string is falsy). -/
def labelOf (it : CItem) : String :=
  if it.category.isEmpty then "Uncategorized" else it.category

/-- One step of the grouping reducer:
`accumulator[category] = (accumulator[category] || 0) + Number(item.stock)`.
The association list keeps first-occurrence key order, which is the
`Object.entries` order for the non-integer-like string keys used as
category names. -/
def bumpGroup : List (String × JNum) → String → JNum → List (String × JNum)
  | [], lab, v => [(lab, jadd (jfin 0) v)]
  | (l, s) :: rest, lab, v =>
    if l = lab then (l, jadd (if jTruthy s then s else jfin 0) v) :: rest
    else (l, s) :: bumpGroup rest lab v

/-- The grouped per-category stock sums (`items.reduce(..., {})`). -/
def groupedStock (items : List CItem) : List (String × JNum) :=
  items.foldl (fun acc it => bumpGroup acc (labelOf it) it.stock) []

/-- Insertion step for `.sort((a, b) => b[1] - a[1])`: an element moves
in front of another exactly when the other's value is strictly smaller.
The result is a permutation in descending value order; elements with
equal values may come out in a different relative order than JS's
(spec-mandated stable) sort, which is immaterial here: no property
proven below depends on tie order, and on pairwise-distinct values the
orders coincide. -/
def insertDesc (x : String × JNum) : List (String × JNum) → List (String × JNum)
  | [] => [x]
  | y :: ys => if jlt y.2 x.2 then x :: y :: ys else y :: insertDesc x ys

/-- Insertion sort descending by value (see `insertDesc` on ties). -/
def sortDesc : List (String × JNum) → List (String × JNum)
  | [] => []
  | x :: xs => insertDesc x (sortDesc xs)

structure Segment where
  label : String
  value : JNum
  color : String
deriving DecidableEq, Repr

/-- `.map(([label, value], index) => ({ label, value, color:
chartPalette[index % chartPalette.length] }))`, with the running index. -/
def withColors : Nat → List (String × JNum) → List Segment
  | _, [] => []
  | i, (l, v) :: rest =>
    { label := l, value := v,
      color := chartPalette.getD (i % chartPalette.length) "" } ::
      withColors (i + 1) rest

/-- `categorySegments`. -/
def categorySegments (items : List CItem) : List Segment :=
  withColors 0 (sortDesc (groupedStock items))

/-- `estimatedSales = items.reduce((sum, item) => sum +
sellingPriceOf(item) * Math.max(0, Math.round(Number(item.stock) * 0.28)), 0)`. -/
def estimatedSales (items : List CItem) : JNum :=
  items.foldl
    (fun sum it =>
      jadd sum (jmul (sellingPriceOf it) (jmax0 (jround (jmul it.stock (jfin 0.28))))))
    (jfin 0)

def monthLabels : List String := ["Jan", "Feb", "Mar", "Apr", "May", "Jun"]

/-- `Math.round((estimatedSales / 6) * (0.72 + index * 0.1))`. -/
def salesMonthValue (est : JNum) (i : Nat) : JNum :=
  jround (jmul (jdiv est (jfin 6)) (jfin (0.72 + (i : ℚ) * 0.1)))

def monthRows : Nat → List String → JNum → List (String × JNum)
  | _, [], _ => []
  | i, m :: ms, est => (m, salesMonthValue est i) :: monthRows (i + 1) ms est

/-- `salesByMonth`. -/
def salesByMonth (items : List CItem) : List (String × JNum) :=
  monthRows 0 monthLabels (estimatedSales items)

/-- `0.56 + (index % 2 === 0 ? 0.05 : 0.02)`. -/
def expenseRatio (i : Nat) : ℚ := 0.56 + (if i % 2 = 0 then 0.05 else 0.02)

def expenseRows : Nat → List (String × JNum) → List JNum
  | _, [] => []
  | i, e :: es => jround (jmul e.2 (jfin (expenseRatio i))) :: expenseRows (i + 1) es

/-- `expenseByMonth`. -/
def expenseByMonth (items : List CItem) : List JNum :=
  expenseRows 0 (salesByMonth items)

/-- `profitByMonth = salesByMonth.map((entry, index) =>
Math.max(0, entry.value - expenseByMonth[index]))`. -/
def profitByMonth (items : List CItem) : List JNum :=
  List.zipWith (fun e x => jmax0 (jsub e.2 x)) (salesByMonth items)
    (expenseByMonth items)

/-- Modelled from the spec: the claimed trend formula, whose estimated
sales term is `Σ sellingPrice × round(stock × 0.28)` with no
`Math.max(0, ·)` clamp; the distribution over months is the same formula
the code uses.  Stated only to compare with the code-derived definitions. -/
def specEstimatedSales (items : List CItem) : JNum :=
  items.foldl
    (fun sum it =>
      jadd sum (jmul (sellingPriceOf it) (jround (jmul it.stock (jfin 0.28)))))
    (jfin 0)

/-- Modelled from the spec: monthly sales rows from `specEstimatedSales`. -/
def specSalesByMonth (items : List CItem) : List (String × JNum) :=
  monthRows 0 monthLabels (specEstimatedSales items)

/-- Modelled from the spec: monthly expenses from `specSalesByMonth`. -/
def specExpenseByMonth (items : List CItem) : List JNum :=
  expenseRows 0 (specSalesByMonth items)

/-- Modelled from the spec: monthly profit `max(0, sales − expense)`. -/
def specProfitByMonth (items : List CItem) : List JNum :=
  List.zipWith (fun e x => jmax0 (jsub e.2 x)) (specSalesByMonth items)
    (specExpenseByMonth items)

/-- JS `String(id)` for the numbers that occur as item ids: exact for
integers (ids are server-assigned integers) and for `NaN`. -/
def jsStringOfId : JNum → String
  | none => "NaN"
  | some q => if q.den = 1 then toString q.num else toString q

/-- The sale form after coercion: `itemId` is the raw select string,
`quantity` is `Number(saleForm.quantity)`. -/
structure SaleForm where
  itemId : String
  quantity : JNum
deriving DecidableEq, Repr

/-- A session sale record (`id`/`date` wall-clock fields omitted). -/
structure SaleRecord where
  itemId : JNum
  name : String
  brand : String
  category : String
  quantity : JNum
  sellingPrice : JNum
  totalAmount : JNum
deriving DecidableEq, Repr

/-- The PUT body assembled by the sale flow. -/
structure UpdatePayload where
  name : String
  brand : String
  category : String
  stock : JNum
  rawPrice : JNum
  sellingPrice : JNum
  minStockAlert : JNum
deriving DecidableEq, Repr

/-- `items.find((item) => String(item.id) === saleForm.itemId)`. -/
def findSaleItem (items : List CItem) (itemId : String) : Option CItem :=
  items.find? fun it => jsStringOfId it.id == itemId

/-- The local decision of `onAddSaleSubmit` up to the `fetch` call: each
early `return` before the request is a rejection constructor; only `send`
reaches the network with the PUT payload and the pending sale record. -/
inductive SaleDecision where
  | invalidItem
  | invalidQuantity
  | insufficientStock (name : String) (available : JNum)
  | send (itemId : JNum) (payload : UpdatePayload) (record : SaleRecord)
deriving DecidableEq, Repr

/-- The guard cascade of `onAddSaleSubmit`: no selected item; then
`!Number.isFinite(quantity) || quantity <= 0`; then
`quantity > currentStock`; otherwise build the payload and the record. -/
def saleDecision (items : List CItem) (form : SaleForm) : SaleDecision :=
  match findSaleItem items form.itemId with
  | none => .invalidItem
  | some sel =>
    if !jIsFinite form.quantity || jle form.quantity (jfin 0) then
      .invalidQuantity
    else if jlt sel.stock form.quantity then
      .insufficientStock sel.name sel.stock
    else
      .send sel.id
        { name := sel.name, brand := sel.brand, category := sel.category,
          stock := jsub sel.stock form.quantity, rawPrice := rawPriceOf sel,
          sellingPrice := sellingPriceOf sel,
          minStockAlert := minStockAlertOf sel }
        { itemId := sel.id, name := sel.name, brand := sel.brand,
          category := sel.category, quantity := form.quantity,
          sellingPrice := sellingPriceOf sel,
          totalAmount := jmul (sellingPriceOf sel) form.quantity }

/-- The whole submission: the PUT request goes out only on a `send`
decision, and `setSalesLog(prev => [saleRecord, ...prev])` runs only after
a successful response (`netOk`); every rejection path returns before the
`fetch`, leaving the session log untouched (the items list is never
mutated locally — it is only refreshed from the server, which a rejected
submission never contacts). -/
def onAddSaleSubmit (items : List CItem) (salesLog : List SaleRecord)
    (form : SaleForm) (netOk : Bool) : SaleDecision × List SaleRecord :=
  match saleDecision items form with
  | .send i p r => (.send i p r, if netOk then r :: salesLog else salesLog)
  | d => (d, salesLog)

end Client

/-! ## Predicates and concrete instances used by the verification -/

/-- The price invariant of a stored item: both prices are finite and
`0 ≤ rawPrice ≤ sellingPrice`. -/
def priceOk (it : Item) : Bool :=
  match it.rawPrice, it.sellingPrice with
  | some r, some s => decide (0 ≤ r ∧ r ≤ s)
  | _, _ => false

/-- "Not a finite, non-negative number" for one resolved field. -/
def badNum (x : JNum) : Bool := !jIsFinite x || jlt x (jfin 0)

/-- The search predicate of the spec: the query occurs case-insensitively
in the name, the brand or the category. -/
def matchesQuery (q0 : String) (it : Item) : Bool :=
  ServerA.includesStr (lowerStr it.name) (lowerStr q0) ||
    ServerA.includesStr (lowerStr it.brand) (lowerStr q0) ||
    ServerA.includesStr (lowerStr it.category) (lowerStr q0)

/-- The stock total of the items carrying a given category label. -/
def sumStockQ (items : List Client.CItem) (lab : String) : ℚ :=
  ((items.filter fun it => Client.labelOf it = lab).map
    fun it => (it.stock).getD 0).sum

/-- First-match association lookup in a grouping accumulator. -/
def groupVal : List (String × JNum) → String → Option JNum
  | [], _ => none
  | (l, v) :: rest, lab => if l = lab then some v else groupVal rest lab

/-- A stored item none of whose searchable fields contains a space. -/
def noSpaceItem : Item :=
  { id := jfin 1, name := "X", brand := "Y", category := "Z",
    stock := jfin 1, rawPrice := jfin 1, sellingPrice := jfin 2,
    minStockAlert := jfin 10 }

/-- A create body whose selling price undercuts the raw price. -/
def bodyInverted : Body :=
  { name := some "a", brand := some "b", category := some "c",
    stock := some (jfin 1), rawPrice := some (jfin 10),
    sellingPrice := some (jfin 5), price := none, minStockAlert := none }

/-- A create body that is valid for `src/server/index.js` except that its
`minStockAlert` is negative. -/
def bodyNegAlert : Body :=
  { name := some "a", brand := some "b", category := some "c",
    stock := some (jfin 1), rawPrice := some (jfin 10),
    sellingPrice := some (jfin 15), price := none,
    minStockAlert := some (jfin (-5)) }

/-- A create body supplying `rawPrice` and the legacy `price` alias but
not `sellingPrice`. -/
def bodyPriceAlias : Body :=
  { name := some "a", brand := some "b", category := some "c",
    stock := some (jfin 1), rawPrice := some (jfin 10),
    sellingPrice := none, price := some (jfin 15), minStockAlert := none }

/-- A fully-populated valid create body. -/
def bodyValid : Body :=
  { name := some "Test", brand := some "B", category := some "C",
    stock := some (jfin 5), rawPrice := some (jfin 10),
    sellingPrice := some (jfin 15), price := none,
    minStockAlert := some (jfin 10) }

/-- A partial update body setting only `stock`. -/
def bodyStockOnly : Body :=
  { name := none, brand := none, category := none, stock := some (jfin 20),
    rawPrice := none, sellingPrice := none, price := none,
    minStockAlert := none }

/-- The item list of the grouping example in the spec. -/
def exampleItems : List Client.CItem :=
  [ { id := jfin 1, name := "x1", brand := "y", category := "A",
      stock := jfin 5, rawPrice := none, sellingPrice := some (jfin 10),
      price := none, minStockAlert := none },
    { id := jfin 2, name := "x2", brand := "y", category := "A",
      stock := jfin 3, rawPrice := none, sellingPrice := some (jfin 10),
      price := none, minStockAlert := none },
    { id := jfin 3, name := "x3", brand := "y", category := "B",
      stock := jfin 2, rawPrice := none, sellingPrice := some (jfin 10),
      price := none, minStockAlert := none } ]

/-- A one-item list for evaluating the trend pipeline. -/
def trendItems : List Client.CItem :=
  [ { id := jfin 1, name := "x", brand := "y", category := "A",
      stock := jfin 24, rawPrice := some (jfin 280),
      sellingPrice := some (jfin 450), price := none,
      minStockAlert := some (jfin 10) } ]

/-- A client item with five units in stock. -/
def saleItem0 : Client.CItem :=
  { id := jfin 1, name := "x", brand := "y", category := "A",
    stock := jfin 5, rawPrice := some (jfin 2),
    sellingPrice := some (jfin 10), price := none,
    minStockAlert := some (jfin 10) }

/-- A one-item client list for the sale-flow instance. -/
def saleItems : List Client.CItem := [saleItem0]

/-- A stored item used to exercise the update path. -/
def demoItem : Item :=
  { id := jfin 7, name := "Demo", brand := "B", category := "C",
    stock := jfin 5, rawPrice := jfin 10, sellingPrice := jfin 15,
    minStockAlert := jfin 10 }

/-- The normalized record produced for `bodyStockOnly` against `demoItem`. -/
def demoStockNorm : NormItem :=
  { name := "Demo", brand := "B", category := "C", stock := jfin 20,
    rawPrice := jfin 10, sellingPrice := jfin 15, minStockAlert := jfin 10 }

/-- A sale form asking for more units than `saleItems` holds. -/
def saleFormOver : Client.SaleForm := { itemId := "1", quantity := jfin 7 }

/-! ## Helper lemmas -/

theorem jeqNum_none_right (x : JNum) : jeqNum x none = false := by
  cases x <;> rfl

theorem jeqNum_none_left (x : JNum) : jeqNum none x = false := rfl

/-- A PUT whose coerced id matches no stored item fails with 404 and
leaves the store unchanged. -/
theorem putItem_unmatched (inv : List Item) (pid : JNum) (body : Body)
    (h : ∀ it ∈ inv, jeqNum it.id pid = false) :
    ServerA.putItem inv pid body = (inv, ServerA.PutResult.notFound) := by
  induction inv with
  | nil => rfl
  | cons it rest ih =>
    have h1 : jeqNum it.id pid = false := h it (List.mem_cons_self it rest)
    have h2 := ih fun x hx => h x (List.mem_cons_of_mem it hx)
    simp [ServerA.putItem, h1, h2]

/-- A DELETE whose coerced id matches no stored item fails with 404 and
leaves the store unchanged. -/
theorem deleteItem_unmatched (inv : List Item) (pid : JNum)
    (h : ∀ it ∈ inv, jeqNum it.id pid = false) :
    ServerA.deleteItem inv pid = (inv, ServerA.DeleteResult.notFound) := by
  have hf : inv.filter (fun it => !(jeqNum it.id pid)) = inv :=
    List.filter_eq_self.mpr fun it hit => by simp [h it hit]
  simp [ServerA.deleteItem, hf]

/-! ## C10 -/

/-- C10: whenever the coerced `:id` path parameter matches no stored id —
in particular a non-numeric string, which coerces to NaN (`none`), since
NaN compares `===`-unequal to everything — PUT responds 404 and DELETE
responds 404, and in both cases the handler returns normally with the
store contents unchanged. -/
theorem c10_unmatched_id_not_found :
    (∀ x : JNum, jeqNum x none = false) ∧
    (∀ (inv : List Item) (pid : JNum) (body : Body),
      (∀ it ∈ inv, jeqNum it.id pid = false) →
      ServerA.putItem inv pid body = (inv, ServerA.PutResult.notFound)) ∧
    (∀ (inv : List Item) (pid : JNum),
      (∀ it ∈ inv, jeqNum it.id pid = false) →
      ServerA.deleteItem inv pid = (inv, ServerA.DeleteResult.notFound)) :=
  ⟨jeqNum_none_right, putItem_unmatched, deleteItem_unmatched⟩

/-- C10 witness: a NaN id (from the path string `"abc"`) and an unused
numeric id both produce 404 with the seed store intact. -/
theorem c10_unmatched_id_not_found_witness :
    ServerA.putItem ServerA.seedInventory none emptyBody =
      (ServerA.seedInventory, ServerA.PutResult.notFound) ∧
    ServerA.deleteItem ServerA.seedInventory (jfin 99) =
      (ServerA.seedInventory, ServerA.DeleteResult.notFound) :=
  ⟨c10_unmatched_id_not_found.2.1 ServerA.seedInventory none emptyBody (by decide),
   c10_unmatched_id_not_found.2.2 ServerA.seedInventory (jfin 99) (by decide)⟩

/-! ## C9 -/

/-- C9: a record-sale submission selecting an existing item with a
quantity exceeding its current stock is rejected by the local guard
cascade before the `fetch`: the decision is a rejection (never `send`, so
no PUT is issued and no stock update can happen), and the session sales
log is unchanged whatever the network would have answered. -/
theorem c9_oversell_rejected_locally :
    ∀ (items : List Client.CItem) (log : List Client.SaleRecord)
      (form : Client.SaleForm) (netOk : Bool) (sel : Client.CItem),
      Client.findSaleItem items form.itemId = some sel →
      jlt sel.stock form.quantity = true →
      (Client.saleDecision items form = Client.SaleDecision.invalidQuantity ∨
        Client.saleDecision items form =
          Client.SaleDecision.insufficientStock sel.name sel.stock) ∧
      (∀ i p r, Client.saleDecision items form ≠ Client.SaleDecision.send i p r) ∧
      (Client.onAddSaleSubmit items log form netOk).2 = log := by
  intro items log form netOk sel hfind hover
  have hd : Client.saleDecision items form = Client.SaleDecision.invalidQuantity ∨
      Client.saleDecision items form =
        Client.SaleDecision.insufficientStock sel.name sel.stock := by
    unfold Client.saleDecision
    rw [hfind]
    by_cases hq : (!jIsFinite form.quantity || Client.jle form.quantity (jfin 0)) = true
    · left; simp [hq]
    · right; simp [hq, hover]
  refine ⟨hd, ?_, ?_⟩
  · intro i p r hsend
    rcases hd with h | h <;> rw [h] at hsend <;> simp at hsend
  · rcases hd with h | h <;> simp [Client.onAddSaleSubmit, h]

/-- C9 witness: selling 7 units of a 5-unit item is rejected with the
insufficient-stock decision and an untouched log. -/
theorem c9_oversell_rejected_locally_witness :
    (Client.saleDecision saleItems saleFormOver =
        Client.SaleDecision.invalidQuantity ∨
      Client.saleDecision saleItems saleFormOver =
        Client.SaleDecision.insufficientStock saleItem0.name saleItem0.stock) ∧
    (∀ i p r, Client.saleDecision saleItems saleFormOver ≠
      Client.SaleDecision.send i p r) ∧
    (Client.onAddSaleSubmit saleItems [] saleFormOver true).2 = [] :=
  c9_oversell_rejected_locally saleItems [] saleFormOver true saleItem0
    (by decide) (by decide)

/-- An empty pattern is a substring of every string. -/
theorem includesStr_empty (s : String) : ServerA.includesStr s "" = true := by
  unfold ServerA.includesStr
  apply decide_eq_true
  exact ⟨[], s.toList, by simp [String.toList_empty]⟩

/-! ## C6 -/

/-- C6 counterexample: the `GET /api/items` handler of the unnamed file's
variant trims the query first (part_000 line 1543), so on the
whitespace-only query `" "` it returns the whole store — including an
item none of whose fields contains `" "` as a substring — refuting the
universally-quantified "returns exactly the items whose name, brand, or
category contains q" for that cited handler. -/
theorem c6_counterexample_trimmed_query :
    ServerB.searchItems [noSpaceItem] " " = [noSpaceItem] ∧
    matchesQuery " " noSpaceItem = false ∧
    List.filter (matchesQuery " ") [noSpaceItem] = [] :=
  ⟨rfl, by decide, by decide⟩

/-- C6 amended: `GET /api/items` of `src/server/index.js` returns exactly
the items one of whose `name`, `brand` or `category` contains the query
as a case-insensitive substring (`matchesQuery`), in storage order (the
result is a filter of the stored list, hence a sublist of it), the whole
list on an empty or absent query (`req.query.q || ''` makes the two
coincide); the variant bundled in the unnamed file first trims the
query, so it returns exactly the items matching the *trimmed* query —
identical behavior on queries without leading or trailing whitespace,
but a whitespace-padded query matches against its trimmed form and a
whitespace-only query returns the entire list. -/
theorem c6_search_case_insensitive :
    (∀ (inv : List Item) (q0 : String),
      ServerA.searchItems inv q0 = inv.filter (matchesQuery q0)) ∧
    (∀ inv : List Item, ServerA.searchItems inv "" = inv) ∧
    (∀ (inv : List Item) (q0 : String),
      (ServerA.searchItems inv q0).Sublist inv) ∧
    (∀ (inv : List Item) (q0 : String),
      ServerB.searchItems inv q0 = inv.filter (matchesQuery (trimStr q0))) ∧
    (∀ inv : List Item, ServerB.searchItems inv "" = inv) ∧
    (∀ (inv : List Item) (q0 : String),
      (ServerB.searchItems inv q0).Sublist inv) := by
  have hfilter : ∀ (inv : List Item) (q0 : String),
      ServerA.searchItems inv q0 = inv.filter (matchesQuery q0) := by
    intro inv q0
    unfold ServerA.searchItems
    by_cases h : (lowerStr q0).isEmpty = true
    · rw [if_pos h]
      refine (List.filter_eq_self.mpr ?_).symm
      intro it _
      have hq : lowerStr q0 = "" := (String.isEmpty_iff _).mp h
      simp [matchesQuery, hq, includesStr_empty]
    · rw [if_neg h]
      rfl
  have hfilterB : ∀ (inv : List Item) (q0 : String),
      ServerB.searchItems inv q0 = inv.filter (matchesQuery (trimStr q0)) := by
    intro inv q0
    unfold ServerB.searchItems
    by_cases h : (lowerStr (trimStr q0)).isEmpty = true
    · rw [if_pos h]
      refine (List.filter_eq_self.mpr ?_).symm
      intro it _
      have hq : lowerStr (trimStr q0) = "" := (String.isEmpty_iff _).mp h
      simp [matchesQuery, hq, includesStr_empty]
    · rw [if_neg h]
      rfl
  refine ⟨hfilter, ?_, ?_, hfilterB, ?_, ?_⟩
  · intro inv
    have h : (lowerStr "").isEmpty = true := by decide
    unfold ServerA.searchItems
    rw [if_pos h]
  · intro inv q0
    rw [hfilter inv q0]
    exact List.filter_sublist inv
  · intro inv
    have h : (lowerStr (trimStr "")).isEmpty = true := by decide
    unfold ServerB.searchItems
    rw [if_pos h]
  · intro inv q0
    rw [hfilterB inv q0]
    exact List.filter_sublist inv

/-! ## Validator elimination lemmas (ServerA) -/

/-- Successful ServerA validation forces the numeric guard false and pins
the normalized record to the resolved fields. -/
theorem validateA_ok_eq {body : Body} {cur : Option Item} {c : Bool} {n : NormItem}
    (h : ServerA.validateAndNormalizeItem body cur c = .ok n) :
    ServerA.numbersBad (ServerA.resolvedStock body cur)
      (ServerA.resolvedRawPrice body cur)
      (ServerA.resolvedSellingPrice body cur) = false ∧
    (c && (body.rawPrice.isNone || body.sellingPrice.isNone)) = false ∧
    n = { name := (ServerA.resolvedName body cur).getD "",
          brand := (ServerA.resolvedBrand body cur).getD "",
          category := (ServerA.resolvedCategory body cur).getD "",
          stock := ServerA.resolvedStock body cur,
          rawPrice := ServerA.resolvedRawPrice body cur,
          sellingPrice := ServerA.resolvedSellingPrice body cur,
          minStockAlert := ServerA.resolvedMinStockAlert body cur } := by
  cases c <;>
    by_cases h1 : strFalsy (ServerA.resolvedName body cur) = true <;>
    by_cases h2 : strFalsy (ServerA.resolvedBrand body cur) = true <;>
    by_cases h3 : strFalsy (ServerA.resolvedCategory body cur) = true <;>
    by_cases h4 : ServerA.numbersBad (ServerA.resolvedStock body cur)
      (ServerA.resolvedRawPrice body cur)
      (ServerA.resolvedSellingPrice body cur) = true <;>
    by_cases h5 : (body.rawPrice.isNone || body.sellingPrice.isNone) = true <;>
    simp_all [ServerA.validateAndNormalizeItem, Option.isSome_iff_ne_none]

/-- A false ServerA numeric guard yields finite values with
`0 ≤ stock`, `0 ≤ rawPrice ≤ sellingPrice`. -/
theorem numbersBad_false {s r p : JNum}
    (h : ServerA.numbersBad s r p = false) :
    ∃ sq rq pq : ℚ, s = some sq ∧ r = some rq ∧ p = some pq ∧
      0 ≤ sq ∧ 0 ≤ rq ∧ rq ≤ pq := by
  rcases s with _ | sq
  · simp [ServerA.numbersBad, jIsFinite] at h
  rcases r with _ | rq
  · simp [ServerA.numbersBad, jIsFinite] at h
  rcases p with _ | pq
  · simp [ServerA.numbersBad, jIsFinite] at h
  have h' : (0 ≤ sq ∧ 0 ≤ rq) ∧ rq ≤ pq := by
    simpa [ServerA.numbersBad, jIsFinite, jlt, jfin] using h
  exact ⟨sq, rq, pq, rfl, rfl, rfl, h'.1.1, h'.1.2, h'.2⟩

/-- A bad stock, raw price or selling price forces the combined ServerA
numeric guard to fire (a negative selling price trips either the
raw-price or the inversion disjunct). -/
theorem numbersBad_of_badNum {s r p : JNum}
    (h : badNum s = true ∨ badNum r = true ∨ badNum p = true) :
    ServerA.numbersBad s r p = true := by
  rcases h with h | h | h
  · rcases s with _ | sq
    · simp [ServerA.numbersBad, jIsFinite]
    · have hs : sq < 0 := by simpa [badNum, jIsFinite, jlt, jfin] using h
      simp [ServerA.numbersBad, jlt, jfin, hs]
  · rcases r with _ | rq
    · simp [ServerA.numbersBad, jIsFinite]
    · have hr : rq < 0 := by simpa [badNum, jIsFinite, jlt, jfin] using h
      simp [ServerA.numbersBad, jlt, jfin, hr]
  · rcases p with _ | pq
    · simp [ServerA.numbersBad, jIsFinite]
    · have hp : pq < 0 := by simpa [badNum, jIsFinite, jlt, jfin] using h
      rcases r with _ | rq
      · simp [ServerA.numbersBad, jIsFinite]
      · by_cases hr : rq < 0
        · simp [ServerA.numbersBad, jlt, jfin, hr]
        · have : pq < rq := lt_of_lt_of_le hp (not_lt.mp hr)
          simp [ServerA.numbersBad, jlt, jfin, this]

/-- Successful ServerB validation forces every per-field guard false and
pins the normalized record to the resolved fields. -/
theorem validateB_ok_eq {body : Body} {cur : Option Item} {c : Bool} {n : NormItem}
    (h : ServerB.validateAndNormalizeItem body cur c = .ok n) :
    badNum (ServerB.resolvedStock body cur) = false ∧
    badNum (ServerB.resolvedRawPrice body cur) = false ∧
    badNum (ServerB.resolvedSellingPrice body cur) = false ∧
    jlt (ServerB.resolvedSellingPrice body cur)
      (ServerB.resolvedRawPrice body cur) = false ∧
    badNum (ServerB.resolvedMinStockAlert body cur) = false ∧
    (c && (body.rawPrice.isNone ||
      (body.sellingPrice.isNone && body.price.isNone))) = false ∧
    n = { name := (ServerB.resolvedName body cur).getD "",
          brand := (ServerB.resolvedBrand body cur).getD "",
          category := (ServerB.resolvedCategory body cur).getD "",
          stock := ServerB.resolvedStock body cur,
          rawPrice := ServerB.resolvedRawPrice body cur,
          sellingPrice := ServerB.resolvedSellingPrice body cur,
          minStockAlert := ServerB.resolvedMinStockAlert body cur } := by
  cases c <;>
    by_cases h1 : (strFalsy (ServerB.resolvedName body cur) ||
      strFalsy (ServerB.resolvedBrand body cur) ||
      strFalsy (ServerB.resolvedCategory body cur)) = true <;>
    by_cases h2 : (!jIsFinite (ServerB.resolvedStock body cur) ||
      jlt (ServerB.resolvedStock body cur) (jfin 0)) = true <;>
    by_cases h3 : (!jIsFinite (ServerB.resolvedRawPrice body cur) ||
      jlt (ServerB.resolvedRawPrice body cur) (jfin 0)) = true <;>
    by_cases h4 : (!jIsFinite (ServerB.resolvedSellingPrice body cur) ||
      jlt (ServerB.resolvedSellingPrice body cur) (jfin 0)) = true <;>
    by_cases h5 : jlt (ServerB.resolvedSellingPrice body cur)
      (ServerB.resolvedRawPrice body cur) = true <;>
    by_cases h6 : (!jIsFinite (ServerB.resolvedMinStockAlert body cur) ||
      jlt (ServerB.resolvedMinStockAlert body cur) (jfin 0)) = true <;>
    by_cases h7 : (body.rawPrice.isNone ||
      (body.sellingPrice.isNone && body.price.isNone)) = true <;>
    simp_all [ServerB.validateAndNormalizeItem, badNum, Option.isSome_iff_ne_none]

/-- ServerA rejects whenever stock, raw price or selling price resolves
badly (the result is some validation error). -/
theorem validateA_rejects_badNum (body : Body) (cur : Option Item) (c : Bool)
    (h : badNum (ServerA.resolvedStock body cur) = true ∨
      badNum (ServerA.resolvedRawPrice body cur) = true ∨
      badNum (ServerA.resolvedSellingPrice body cur) = true) :
    ∃ msg, ServerA.validateAndNormalizeItem body cur c = .error msg := by
  cases hv : ServerA.validateAndNormalizeItem body cur c with
  | error e => exact ⟨e, rfl⟩
  | ok n =>
    exact absurd (validateA_ok_eq hv).1
      (by simp [numbersBad_of_badNum h])

/-- ServerA can only issue the missing-price message on a create whose
`body.rawPrice` or `body.sellingPrice` (alias not accepted) is absent. -/
theorem validateA_missingPrice_source (body : Body) (cur : Option Item)
    (h : ServerA.validateAndNormalizeItem body cur true =
      .error ServerA.missingPriceMsg) :
    body.rawPrice = none ∨ body.sellingPrice = none := by
  by_cases h1 : strFalsy (ServerA.resolvedName body cur) = true <;>
    by_cases h2 : strFalsy (ServerA.resolvedBrand body cur) = true <;>
    by_cases h3 : strFalsy (ServerA.resolvedCategory body cur) = true <;>
    by_cases h4 : ServerA.numbersBad (ServerA.resolvedStock body cur)
      (ServerA.resolvedRawPrice body cur)
      (ServerA.resolvedSellingPrice body cur) = true <;>
    by_cases h5 : (body.rawPrice.isNone || body.sellingPrice.isNone) = true <;>
    simp_all [ServerA.validateAndNormalizeItem, ServerA.missingFieldMsg,
      ServerA.invalidNumericMsg, ServerA.missingPriceMsg,
      Option.isNone_iff_eq_none]

/-- ServerB can only issue the missing-price message on a create whose
`body.rawPrice` is absent or whose `body.sellingPrice` and `body.price`
are both absent. -/
theorem validateB_missingPrice_source (body : Body) (cur : Option Item)
    (h : ServerB.validateAndNormalizeItem body cur true =
      .error ServerB.missingPriceMsg) :
    body.rawPrice = none ∨ (body.sellingPrice = none ∧ body.price = none) := by
  by_cases h1 : (strFalsy (ServerB.resolvedName body cur) ||
      strFalsy (ServerB.resolvedBrand body cur) ||
      strFalsy (ServerB.resolvedCategory body cur)) = true <;>
    by_cases h2 : (!jIsFinite (ServerB.resolvedStock body cur) ||
      jlt (ServerB.resolvedStock body cur) (jfin 0)) = true <;>
    by_cases h3 : (!jIsFinite (ServerB.resolvedRawPrice body cur) ||
      jlt (ServerB.resolvedRawPrice body cur) (jfin 0)) = true <;>
    by_cases h4 : (!jIsFinite (ServerB.resolvedSellingPrice body cur) ||
      jlt (ServerB.resolvedSellingPrice body cur) (jfin 0)) = true <;>
    by_cases h5 : jlt (ServerB.resolvedSellingPrice body cur)
      (ServerB.resolvedRawPrice body cur) = true <;>
    by_cases h6 : (!jIsFinite (ServerB.resolvedMinStockAlert body cur) ||
      jlt (ServerB.resolvedMinStockAlert body cur) (jfin 0)) = true <;>
    by_cases h7 : (body.rawPrice.isNone ||
      (body.sellingPrice.isNone && body.price.isNone)) = true <;>
    simp_all [ServerB.validateAndNormalizeItem, ServerB.missingFieldMsg,
      ServerB.stockMsg, ServerB.rawPriceMsg, ServerB.sellingPriceMsg,
      ServerB.inversionMsg, ServerB.minStockAlertMsg, ServerB.missingPriceMsg,
      Option.isNone_iff_eq_none]

/-- ServerB rejects whenever any of the four numeric fields resolves
badly. -/
theorem validateB_rejects_badNum (body : Body) (cur : Option Item) (c : Bool)
    (h : badNum (ServerB.resolvedStock body cur) = true ∨
      badNum (ServerB.resolvedRawPrice body cur) = true ∨
      badNum (ServerB.resolvedSellingPrice body cur) = true ∨
      badNum (ServerB.resolvedMinStockAlert body cur) = true) :
    ∃ msg, ServerB.validateAndNormalizeItem body cur c = .error msg := by
  cases hv : ServerB.validateAndNormalizeItem body cur c with
  | error e => exact ⟨e, rfl⟩
  | ok n =>
    obtain ⟨g1, g2, g3, _, g5, _, _⟩ := validateB_ok_eq hv
    rcases h with h | h | h | h <;> simp_all

/-- A successful ServerA validation carries finite prices with
`0 ≤ rawPrice ≤ sellingPrice`. -/
theorem validateA_ok_prices {body : Body} {cur : Option Item} {c : Bool}
    {n : NormItem} (h : ServerA.validateAndNormalizeItem body cur c = .ok n) :
    ∃ r s : ℚ, n.rawPrice = some r ∧ n.sellingPrice = some s ∧
      0 ≤ r ∧ r ≤ s := by
  obtain ⟨hnb, -, hn⟩ := validateA_ok_eq h
  obtain ⟨sq, rq, pq, -, hr, hp, -, hr0, hrp⟩ := numbersBad_false hnb
  subst hn
  exact ⟨rq, pq, by simp [hr], by simp [hp], hr0, hrp⟩

/-- `priceOk` from explicit bounds. -/
theorem priceOk_item {it : Item} {r s : ℚ} (hr : it.rawPrice = some r)
    (hs : it.sellingPrice = some s) (h0 : 0 ≤ r) (hrs : r ≤ s) :
    priceOk it = true := by
  simp [priceOk, hr, hs, h0, hrs]

/-- POST preserves the price invariant. -/
theorem storeInv_postItem (inv : List Item) (body : Body)
    (h : ∀ it ∈ inv, priceOk it = true) :
    ∀ it ∈ (ServerA.postItem inv body).1, priceOk it = true := by
  cases hv : ServerA.validateAndNormalizeItem body none true with
  | error e => simpa [ServerA.postItem, hv] using h
  | ok n =>
    obtain ⟨r, s, hr, hs, h0, hrs⟩ := validateA_ok_prices hv
    intro it hit
    simp [ServerA.postItem, hv] at hit
    rcases hit with hit | hit
    · exact h it hit
    · subst hit
      exact priceOk_item (by simpa using hr) (by simpa using hs) h0 hrs

/-- PUT preserves the price invariant. -/
theorem storeInv_putItem (pid : JNum) (body : Body) :
    ∀ inv : List Item, (∀ it ∈ inv, priceOk it = true) →
      ∀ it ∈ (ServerA.putItem inv pid body).1, priceOk it = true := by
  intro inv
  induction inv with
  | nil => intro _ it hit; simp [ServerA.putItem] at hit
  | cons a rest ih =>
    intro h it hit
    have ha : priceOk a = true := h a (List.mem_cons_self a rest)
    have hrest : ∀ x ∈ rest, priceOk x = true :=
      fun x hx => h x (List.mem_cons_of_mem a hx)
    by_cases he : jeqNum a.id pid = true
    · cases hv : ServerA.validateAndNormalizeItem body (some a) false with
      | error e =>
        simp [ServerA.putItem, he, hv] at hit
        rcases hit with hit | hit
        · subst hit; exact ha
        · exact hrest it hit
      | ok n =>
        obtain ⟨r, s, hr, hs, h0, hrs⟩ := validateA_ok_prices hv
        simp [ServerA.putItem, he, hv] at hit
        rcases hit with hit | hit
        · subst hit
          refine priceOk_item ?_ ?_ h0 hrs
          · simpa [ServerA.mergeItem] using hr
          · simpa [ServerA.mergeItem] using hs
        · exact hrest it hit
    · have he' : jeqNum a.id pid = false := by simpa using he
      simp [ServerA.putItem, he'] at hit
      rcases hit with hit | hit
      · subst hit; exact ha
      · exact ih hrest it hit

/-- DELETE preserves the price invariant. -/
theorem storeInv_deleteItem (pid : JNum) (inv : List Item)
    (h : ∀ it ∈ inv, priceOk it = true) :
    ∀ it ∈ (ServerA.deleteItem inv pid).1, priceOk it = true := by
  intro it hit
  have hmem : it ∈ inv.filter (fun i => !(jeqNum i.id pid)) := by
    by_cases hc : (inv.filter fun i => !(jeqNum i.id pid)).length = inv.length
    · simpa [ServerA.deleteItem, hc] using hit
    · simpa [ServerA.deleteItem, hc] using hit
  exact h it (List.mem_of_mem_filter hmem)

/-- Every reachable store satisfies the price invariant. -/
theorem storeInv_reachable :
    ∀ {inv : List Item}, ServerA.Reachable inv →
      ∀ it ∈ inv, priceOk it = true := by
  intro inv hr
  induction hr with
  | seed => decide
  | step op hprev ih =>
    cases op with
    | post body => exact storeInv_postItem _ body ih
    | put pid body => exact storeInv_putItem pid body _ ih
    | del pid => exact storeInv_deleteItem pid _ ih
    | get q => exact ih

/-- An inverted price pair is rejected by ServerA. -/
theorem validateA_rejects_inversion (body : Body) (cur : Option Item) (c : Bool)
    (h : jlt (ServerA.resolvedSellingPrice body cur)
      (ServerA.resolvedRawPrice body cur) = true) :
    ∃ msg, ServerA.validateAndNormalizeItem body cur c = .error msg := by
  cases hv : ServerA.validateAndNormalizeItem body cur c with
  | error e => exact ⟨e, rfl⟩
  | ok n =>
    have hnb := (validateA_ok_eq hv).1
    simp [ServerA.numbersBad, h] at hnb

/-- An inverted price pair is rejected by ServerB. -/
theorem validateB_rejects_inversion (body : Body) (cur : Option Item) (c : Bool)
    (h : jlt (ServerB.resolvedSellingPrice body cur)
      (ServerB.resolvedRawPrice body cur) = true) :
    ∃ msg, ServerB.validateAndNormalizeItem body cur c = .error msg := by
  cases hv : ServerB.validateAndNormalizeItem body cur c with
  | error e => exact ⟨e, rfl⟩
  | ok n =>
    have h4 := (validateB_ok_eq hv).2.2.2.1
    simp [h] at h4

/-- A failed validation makes POST answer 400 and leave the store alone. -/
theorem postItem_error (inv : List Item) (body : Body) (msg : String)
    (hv : ServerA.validateAndNormalizeItem body none true = .error msg) :
    ServerA.postItem inv body = (inv, ServerA.PostResult.badRequest msg) := by
  simp [ServerA.postItem, hv]

/-- Unless PUT answers 200 with an updated record, the store is
unchanged. -/
theorem putItem_not_updated_unchanged (pid : JNum) (body : Body) :
    ∀ inv : List Item,
      (∀ r, (ServerA.putItem inv pid body).2 ≠ ServerA.PutResult.updated r) →
      (ServerA.putItem inv pid body).1 = inv := by
  intro inv
  induction inv with
  | nil => intro _; rfl
  | cons a rest ih =>
    intro hne
    by_cases he : jeqNum a.id pid = true
    · cases hv : ServerA.validateAndNormalizeItem body (some a) false with
      | error e => simp [ServerA.putItem, he, hv]
      | ok n =>
        exact absurd (by simp [ServerA.putItem, he, hv] :
          (ServerA.putItem (a :: rest) pid body).2 =
            ServerA.PutResult.updated
              (buildItemResponse (ServerA.mergeItem a n)))
          (hne _)
    · have he' : jeqNum a.id pid = false := by simpa using he
      have h2 : ∀ r, (ServerA.putItem rest pid body).2 ≠
          ServerA.PutResult.updated r := by
        intro r hr
        exact hne r (by simp [ServerA.putItem, he', hr])
      simp [ServerA.putItem, he', ih h2]

/-! ## C1 -/

/-- C1: a resolved selling price strictly below the resolved raw price is
rejected by both validators (on create and update alike — the flag and
prior record are universally quantified); in the stricter variant the
error is the dedicated price-inversion message whenever the earlier
checks pass; a validation error makes POST answer 400 with the store
untouched and PUT leave the store untouched whenever it does not answer
with an updated record; consequently every item of every store state
reachable through the API satisfies `sellingPrice ≥ rawPrice`. -/
theorem c1_price_inversion_rejected :
    (∀ (body : Body) (cur : Option Item) (c : Bool),
      jlt (ServerA.resolvedSellingPrice body cur)
        (ServerA.resolvedRawPrice body cur) = true →
      ∃ msg, ServerA.validateAndNormalizeItem body cur c = .error msg) ∧
    (∀ (body : Body) (cur : Option Item) (c : Bool),
      jlt (ServerB.resolvedSellingPrice body cur)
        (ServerB.resolvedRawPrice body cur) = true →
      ∃ msg, ServerB.validateAndNormalizeItem body cur c = .error msg) ∧
    (∀ (body : Body) (cur : Option Item) (c : Bool),
      strFalsy (ServerB.resolvedName body cur) = false →
      strFalsy (ServerB.resolvedBrand body cur) = false →
      strFalsy (ServerB.resolvedCategory body cur) = false →
      badNum (ServerB.resolvedStock body cur) = false →
      badNum (ServerB.resolvedRawPrice body cur) = false →
      badNum (ServerB.resolvedSellingPrice body cur) = false →
      jlt (ServerB.resolvedSellingPrice body cur)
        (ServerB.resolvedRawPrice body cur) = true →
      ServerB.validateAndNormalizeItem body cur c =
        .error ServerB.inversionMsg) ∧
    (∀ (inv : List Item) (body : Body) (msg : String),
      ServerA.validateAndNormalizeItem body none true = .error msg →
      ServerA.postItem inv body = (inv, ServerA.PostResult.badRequest msg)) ∧
    (∀ (inv : List Item) (pid : JNum) (body : Body),
      (∀ r, (ServerA.putItem inv pid body).2 ≠ ServerA.PutResult.updated r) →
      (ServerA.putItem inv pid body).1 = inv) ∧
    (∀ inv : List Item, ServerA.Reachable inv →
      ∀ it ∈ inv, priceOk it = true) := by
  refine ⟨validateA_rejects_inversion, validateB_rejects_inversion, ?_,
    postItem_error, fun inv pid body => putItem_not_updated_unchanged pid body inv,
    fun inv hr => storeInv_reachable hr⟩
  intro body cur c h1 h2 h3 h4 h5 h6 h7
  simp only [badNum] at h4 h5 h6
  simp [ServerB.validateAndNormalizeItem, h1, h2, h3, h4, h5, h6, h7]

/-- C1 witness: the inverted body is rejected by both validators (with
the dedicated message on the stricter one), POST with it bounces off the
seed store unchanged, and the seed store is reachable and satisfies the
invariant. -/
theorem c1_price_inversion_rejected_witness :
    (∃ msg, ServerA.validateAndNormalizeItem bodyInverted none true =
      .error msg) ∧
    (∃ msg, ServerB.validateAndNormalizeItem bodyInverted none true =
      .error msg) ∧
    ServerB.validateAndNormalizeItem bodyInverted none true =
      .error ServerB.inversionMsg ∧
    ServerA.postItem ServerA.seedInventory bodyInverted =
      (ServerA.seedInventory,
        ServerA.PostResult.badRequest ServerA.invalidNumericMsg) ∧
    (∀ it ∈ ServerA.seedInventory, priceOk it = true) :=
  ⟨c1_price_inversion_rejected.1 bodyInverted none true (by decide),
   c1_price_inversion_rejected.2.1 bodyInverted none true (by decide),
   c1_price_inversion_rejected.2.2.1 bodyInverted none true (by decide)
     (by decide) (by decide) (by decide) (by decide) (by decide) (by decide),
   c1_price_inversion_rejected.2.2.2.1 ServerA.seedInventory bodyInverted
     ServerA.invalidNumericMsg rfl,
   c1_price_inversion_rejected.2.2.2.2.2 ServerA.seedInventory
     ServerA.Reachable.seed⟩

/-! ## C2 -/

/-- C2 counterexample: the `src/server/index.js` validator never inspects
`minStockAlert`.  A create body that is otherwise valid but carries
`minStockAlert = -5` (a resolved field that is a negative number, hence
not a finite, non-negative number) is accepted, the `-5` is kept in the
normalized record, and the POST route stores it — refuting both the
claimed InvalidNumber rejection and the "rejected rather than stored"
consequence. -/
theorem c2_counterexample_minstockalert_stored :
    badNum (ServerA.resolvedMinStockAlert bodyNegAlert none) = true ∧
    ServerA.validateAndNormalizeItem bodyNegAlert none true =
      Except.ok { name := "a", brand := "b", category := "c",
                  stock := jfin 1, rawPrice := jfin 10,
                  sellingPrice := jfin 15, minStockAlert := jfin (-5) } ∧
    (ServerA.postItem [] bodyNegAlert).1 =
      [{ id := jfin 1, name := "a", brand := "b", category := "c",
         stock := jfin 1, rawPrice := jfin 10, sellingPrice := jfin 15,
         minStockAlert := jfin (-5) }] :=
  ⟨by decide, rfl, rfl⟩

/-- C2 amended: if `stock`, `rawPrice` or `sellingPrice` resolves to a
value that is not a finite, non-negative number, both validators reject;
`minStockAlert` is validated only by the variant bundled in the unnamed
source file — there a bad `minStockAlert` is rejected (with its dedicated
invalid-number message when every other check passes), while
`src/server/index.js` stores it unchecked. -/
theorem c2_invalid_numbers_rejected :
    (∀ (body : Body) (cur : Option Item) (c : Bool),
      badNum (ServerA.resolvedStock body cur) = true ∨
        badNum (ServerA.resolvedRawPrice body cur) = true ∨
        badNum (ServerA.resolvedSellingPrice body cur) = true →
      ∃ msg, ServerA.validateAndNormalizeItem body cur c = .error msg) ∧
    (∀ (body : Body) (cur : Option Item) (c : Bool),
      badNum (ServerB.resolvedStock body cur) = true ∨
        badNum (ServerB.resolvedRawPrice body cur) = true ∨
        badNum (ServerB.resolvedSellingPrice body cur) = true ∨
        badNum (ServerB.resolvedMinStockAlert body cur) = true →
      ∃ msg, ServerB.validateAndNormalizeItem body cur c = .error msg) ∧
    (∀ (body : Body) (cur : Option Item) (c : Bool),
      strFalsy (ServerB.resolvedName body cur) = false →
      strFalsy (ServerB.resolvedBrand body cur) = false →
      strFalsy (ServerB.resolvedCategory body cur) = false →
      badNum (ServerB.resolvedStock body cur) = false →
      badNum (ServerB.resolvedRawPrice body cur) = false →
      badNum (ServerB.resolvedSellingPrice body cur) = false →
      jlt (ServerB.resolvedSellingPrice body cur)
        (ServerB.resolvedRawPrice body cur) = false →
      badNum (ServerB.resolvedMinStockAlert body cur) = true →
      ServerB.validateAndNormalizeItem body cur c =
        .error ServerB.minStockAlertMsg) := by
  refine ⟨validateA_rejects_badNum, validateB_rejects_badNum, ?_⟩
  intro body cur c h1 h2 h3 h4 h5 h6 h7 h8
  simp only [badNum] at h4 h5 h6 h8
  simp [ServerB.validateAndNormalizeItem, h1, h2, h3, h4, h5, h6, h7, h8]

/-- C2 witness: the body with the negative `minStockAlert` is rejected by
the stricter validator with the dedicated message. -/
theorem c2_invalid_numbers_rejected_witness :
    ServerB.validateAndNormalizeItem bodyNegAlert none true =
      .error ServerB.minStockAlertMsg ∧
    (∃ msg, ServerB.validateAndNormalizeItem bodyNegAlert none true =
      .error msg) :=
  ⟨c2_invalid_numbers_rejected.2.2 bodyNegAlert none true (by decide)
      (by decide) (by decide) (by decide) (by decide) (by decide) (by decide)
      (by decide),
   c2_invalid_numbers_rejected.2.1 bodyNegAlert none true
      (by decide)⟩

/-! ## C4 -/

/-- Folding `jmax` over finite ids yields a finite bound dominating the
start value and every element. -/
theorem foldl_jmax_bound :
    ∀ (xs : List JNum) (a : JNum) (qa : ℚ), a = some qa →
      (∀ x ∈ xs, x.isSome = true) →
      ∃ m : ℚ, xs.foldl jmax a = some m ∧ qa ≤ m ∧
        ∀ q : ℚ, some q ∈ xs → q ≤ m := by
  intro xs
  induction xs with
  | nil =>
    intro a qa ha _
    exact ⟨qa, by simp [ha], le_refl _, by simp⟩
  | cons x xs ih =>
    intro a qa ha hall
    obtain ⟨qx, hx⟩ := Option.isSome_iff_exists.mp
      (hall x (List.mem_cons_self x xs))
    obtain ⟨m, hm, hle, hmem⟩ := ih (jmax a x) (max qa qx)
      (by simp [jmax, ha, hx])
      (fun y hy => hall y (List.mem_cons_of_mem x hy))
    refine ⟨m, hm, le_trans (le_max_left _ _) hle, ?_⟩
    intro q hq
    rcases List.mem_cons.mp hq with hq | hq
    · have : q = qx := by
        have h' := hx ▸ hq
        exact Option.some_inj.mp h'
      subst this
      exact le_trans (le_max_right qa q) hle
    · exact hmem q hq

/-- C4: a valid create appends one item whose id is `nextId` of the prior
store (`1` on an empty store, the finite maximum plus one otherwise, so
strictly above every existing finite id), and the shaped response carries
`profit = sellingPrice - rawPrice` (a finite exact difference) and
`price = sellingPrice`. -/
theorem c4_create_id_profit :
    ∀ (inv : List Item) (body : Body) (n : NormItem),
      ServerA.validateAndNormalizeItem body none true = .ok n →
      ∃ newItem : Item,
        ServerA.postItem inv body =
          (inv ++ [newItem],
            ServerA.PostResult.created (buildItemResponse newItem)) ∧
        newItem.id = nextId inv ∧
        (inv = [] → newItem.id = jfin 1) ∧
        ((∀ it ∈ inv, (it.id).isSome = true) →
          ∀ it ∈ inv, jlt it.id newItem.id = true) ∧
        (buildItemResponse newItem).profit =
          jsub newItem.sellingPrice newItem.rawPrice ∧
        (buildItemResponse newItem).price = newItem.sellingPrice ∧
        (∃ r s : ℚ, newItem.rawPrice = some r ∧ newItem.sellingPrice = some s ∧
          (buildItemResponse newItem).profit = jfin (s - r)) := by
  intro inv body n hv
  refine ⟨{ id := nextId inv, name := n.name, brand := n.brand,
            category := n.category, stock := n.stock, rawPrice := n.rawPrice,
            sellingPrice := n.sellingPrice, minStockAlert := n.minStockAlert },
    by simp [ServerA.postItem, hv], rfl, fun h => by subst h; rfl, ?_, rfl, rfl, ?_⟩
  · intro hids it hit
    cases inv with
    | nil => cases hit
    | cons a rest =>
      obtain ⟨qa, hqa⟩ := Option.isSome_iff_exists.mp
        (hids a (List.mem_cons_self a rest))
      obtain ⟨m, hm, hle, hmem⟩ := foldl_jmax_bound (rest.map Item.id) a.id qa
        hqa (by
          intro x hx
          obtain ⟨y, hy, rfl⟩ := List.mem_map.mp hx
          exact hids y (List.mem_cons_of_mem a hy))
      have hnext : nextId (a :: rest) = some (m + 1) := by
        simp [nextId, hm, jadd, jfin]
      obtain ⟨qi, hqi⟩ := Option.isSome_iff_exists.mp (hids it hit)
      have hqim : qi ≤ m := by
        rcases List.mem_cons.mp hit with rfl | hit'
        · have : qi = qa := Option.some_inj.mp (hqi ▸ hqa ▸ rfl :
            (some qi : JNum) = some qa)
          exact this ▸ hle
        · exact hmem qi (hqi ▸ List.mem_map_of_mem Item.id hit')
      show jlt it.id (nextId (a :: rest)) = true
      rw [hqi, hnext]
      simp only [jlt, decide_eq_true_eq]
      exact lt_of_le_of_lt hqim (lt_add_one m)
  · obtain ⟨r, s, hr, hs, -, -⟩ := validateA_ok_prices hv
    exact ⟨r, s, by simpa using hr, by simpa using hs,
      by simp [buildItemResponse, jsub, hr, hs, jfin]⟩

/-- C4 witness: creating `bodyValid` over a one-item store assigns id
`8 = 7 + 1`, strictly above the existing id, with `profit = 5`. -/
theorem c4_create_id_profit_witness :
    (∃ newItem : Item,
      ServerA.postItem [demoItem] bodyValid =
        ([demoItem] ++ [newItem],
          ServerA.PostResult.created (buildItemResponse newItem)) ∧
      newItem.id = nextId [demoItem] ∧
      ([demoItem] = [] → newItem.id = jfin 1) ∧
      ((∀ it ∈ [demoItem], (it.id).isSome = true) →
        ∀ it ∈ [demoItem], jlt it.id newItem.id = true) ∧
      (buildItemResponse newItem).profit =
        jsub newItem.sellingPrice newItem.rawPrice ∧
      (buildItemResponse newItem).price = newItem.sellingPrice ∧
      (∃ r s : ℚ, newItem.rawPrice = some r ∧ newItem.sellingPrice = some s ∧
        (buildItemResponse newItem).profit = jfin (s - r))) ∧
    nextId [demoItem] = jfin 8 :=
  ⟨c4_create_id_profit [demoItem] bodyValid
      { name := "Test", brand := "B", category := "C", stock := jfin 5,
        rawPrice := jfin 10, sellingPrice := jfin 15,
        minStockAlert := jfin 10 } rfl,
   by norm_num [nextId, demoItem, jadd, jmax, jfin]⟩

/-! ## C3 -/

/-- C3 counterexample: a create body explicitly supplying `rawPrice` and
the `price` alias (no `sellingPrice`) is still rejected by
`src/server/index.js` with the MissingPriceOnCreate message — refuting
"supplying any one of rawPrice or sellingPrice/price explicitly avoids
this error". -/
theorem c3_counterexample_alias_rejected :
    bodyPriceAlias.rawPrice.isSome = true ∧
    bodyPriceAlias.price.isSome = true ∧
    ServerA.validateAndNormalizeItem bodyPriceAlias none true =
      Except.error ServerA.missingPriceMsg :=
  ⟨rfl, rfl, rfl⟩

/-- C3 amended: on create, `src/server/index.js` rejects whenever
`body.rawPrice` or `body.sellingPrice` is not explicitly supplied (the
`price` alias does not satisfy its check), and its MissingPriceOnCreate
message can only arise from such a body; the variant in the unnamed file
rejects whenever `body.rawPrice` is absent or both `body.sellingPrice`
and `body.price` are absent, its MissingPriceOnCreate message arising
only from such a body (so there the alias does satisfy the check).  When
nothing resolves the missing price the rejection surfaces as the
invalid-number error rather than MissingPriceOnCreate. -/
theorem c3_create_requires_explicit_prices :
    (∀ body : Body, body.rawPrice = none ∨ body.sellingPrice = none →
      ∃ msg, ServerA.validateAndNormalizeItem body none true = .error msg) ∧
    (∀ (body : Body) (cur : Option Item),
      ServerA.validateAndNormalizeItem body cur true =
        .error ServerA.missingPriceMsg →
      body.rawPrice = none ∨ body.sellingPrice = none) ∧
    (∀ body : Body,
      body.rawPrice = none ∨ (body.sellingPrice = none ∧ body.price = none) →
      ∃ msg, ServerB.validateAndNormalizeItem body none true = .error msg) ∧
    (∀ (body : Body) (cur : Option Item),
      ServerB.validateAndNormalizeItem body cur true =
        .error ServerB.missingPriceMsg →
      body.rawPrice = none ∨ (body.sellingPrice = none ∧ body.price = none)) := by
  refine ⟨?_, validateA_missingPrice_source, ?_, validateB_missingPrice_source⟩
  · intro body h
    cases hv : ServerA.validateAndNormalizeItem body none true with
    | error e => exact ⟨e, rfl⟩
    | ok n =>
      obtain ⟨-, hcreate, -⟩ := validateA_ok_eq hv
      rcases h with h | h <;> simp [h] at hcreate
  · intro body h
    refine validateB_rejects_badNum body none true ?_
    rcases h with h | ⟨h1, h2⟩
    · exact Or.inr (Or.inl (by simp [ServerB.resolvedRawPrice, h, badNum, jIsFinite]))
    · exact Or.inr (Or.inr (Or.inl
        (by simp [ServerB.resolvedSellingPrice, h1, h2, badNum, jIsFinite])))

/-- C3 witness: a create body with no price fields at all is rejected by
both validators, and one supplying only `sellingPrice` is rejected by
`src/server/index.js`. -/
theorem c3_create_requires_explicit_prices_witness :
    (∃ msg, ServerA.validateAndNormalizeItem emptyBody none true = .error msg) ∧
    (∃ msg, ServerB.validateAndNormalizeItem emptyBody none true = .error msg) ∧
    (∃ msg, ServerA.validateAndNormalizeItem bodyPriceAlias none true =
      .error msg) :=
  ⟨c3_create_requires_explicit_prices.1 emptyBody (Or.inl rfl),
   c3_create_requires_explicit_prices.2.2.1 emptyBody (Or.inl rfl),
   c3_create_requires_explicit_prices.1 bodyPriceAlias (Or.inr rfl)⟩

/-! ## C7 helper lemmas -/

/-- Truthy-or-zero is the identity on finite values (`0 || 0` is `0`). -/
theorem truthyOr0_finite (qs : ℚ) :
    (if jTruthy (some qs) then (some qs : JNum) else jfin 0) = some qs := by
  by_cases h : qs = 0 <;> simp [jTruthy, jfin, h]

/-- `bumpGroup` leaves other keys alone. -/
theorem bumpGroup_frame :
    ∀ (acc : List (String × JNum)) (lab : String) (v : JNum) (lab' : String),
      lab' ≠ lab →
      groupVal (Client.bumpGroup acc lab v) lab' = groupVal acc lab' := by
  intro acc
  induction acc with
  | nil =>
    intro lab v lab' hne
    simp [Client.bumpGroup, groupVal, hne, Ne.symm hne]
  | cons p rest ih =>
    intro lab v lab' hne
    obtain ⟨l, s⟩ := p
    by_cases hl : l = lab
    · subst hl
      by_cases hl' : l = lab'
      · exact absurd hl'.symm hne
      · simp [Client.bumpGroup, groupVal, hl']
    · by_cases hl' : l = lab'
      · simp [Client.bumpGroup, groupVal, hl, hl', hne, Ne.symm hne]
      · simp [Client.bumpGroup, groupVal, hl, hl', ih lab v lab' hne]

/-- `bumpGroup` on a present key applies the `(prev || 0) + v` update. -/
theorem bumpGroup_hit_some :
    ∀ (acc : List (String × JNum)) (lab : String) (v s : JNum),
      groupVal acc lab = some s →
      groupVal (Client.bumpGroup acc lab v) lab =
        some (jadd (if jTruthy s then s else jfin 0) v) := by
  intro acc
  induction acc with
  | nil => intro lab v s h; simp [groupVal] at h
  | cons p rest ih =>
    intro lab v s h
    obtain ⟨l, t⟩ := p
    by_cases hl : l = lab
    · subst hl
      simp [groupVal] at h
      subst h
      simp [Client.bumpGroup, groupVal]
    · simp [groupVal, hl] at h
      simp [Client.bumpGroup, groupVal, hl, ih lab v s h]

/-- `bumpGroup` on an absent key appends `(lab, 0 + v)`. -/
theorem bumpGroup_hit_none :
    ∀ (acc : List (String × JNum)) (lab : String) (v : JNum),
      groupVal acc lab = none →
      groupVal (Client.bumpGroup acc lab v) lab = some (jadd (jfin 0) v) := by
  intro acc
  induction acc with
  | nil => intro lab v _; simp [Client.bumpGroup, groupVal]
  | cons p rest ih =>
    intro lab v h
    obtain ⟨l, t⟩ := p
    by_cases hl : l = lab
    · subst hl; simp [groupVal] at h
    · simp [groupVal, hl] at h
      simp [Client.bumpGroup, groupVal, hl, ih lab v h]

/-- `bumpGroup` keeps values finite. -/
theorem bumpGroup_finite :
    ∀ (acc : List (String × JNum)) (lab : String) (v : JNum),
      (∀ p ∈ acc, (p.2).isSome = true) → v.isSome = true →
      ∀ p ∈ Client.bumpGroup acc lab v, (p.2).isSome = true := by
  intro acc
  induction acc with
  | nil =>
    intro lab v _ hv p hp
    obtain ⟨qv, rfl⟩ := Option.isSome_iff_exists.mp hv
    simp [Client.bumpGroup] at hp
    subst hp
    simp [jadd, jfin]
  | cons a rest ih =>
    intro lab v hacc hv p hp
    obtain ⟨l, t⟩ := a
    have ht : t.isSome = true := hacc (l, t) (List.mem_cons_self _ _)
    obtain ⟨qt, rfl⟩ := Option.isSome_iff_exists.mp ht
    obtain ⟨qv, rfl⟩ := Option.isSome_iff_exists.mp hv
    by_cases hl : l = lab
    · subst hl
      simp [Client.bumpGroup] at hp
      rcases hp with hp | hp
      · subst hp
        rw [truthyOr0_finite qt]
        simp [jadd]
      · exact hacc p (List.mem_cons_of_mem _ hp)
    · simp [Client.bumpGroup, hl] at hp
      rcases hp with hp | hp
      · subst hp; simp
      · exact ih lab (some qv)
          (fun x hx => hacc x (List.mem_cons_of_mem _ hx)) rfl p hp

/-- Keys after `bumpGroup`: the old keys plus possibly `lab`. -/
theorem bumpGroup_keys_mem :
    ∀ (acc : List (String × JNum)) (lab : String) (v : JNum) (x : String),
      x ∈ (Client.bumpGroup acc lab v).map Prod.fst ↔
        x ∈ acc.map Prod.fst ∨ x = lab := by
  intro acc
  induction acc with
  | nil => intro lab v x; simp [Client.bumpGroup]
  | cons p rest ih =>
    intro lab v x
    obtain ⟨l, t⟩ := p
    by_cases hl : l = lab
    · subst hl
      simp [Client.bumpGroup]
      tauto
    · simp [Client.bumpGroup, hl, ih lab v x]
      tauto

/-- `bumpGroup` keeps the keys without duplicates. -/
theorem bumpGroup_keys_nodup :
    ∀ (acc : List (String × JNum)) (lab : String) (v : JNum),
      (acc.map Prod.fst).Nodup →
      ((Client.bumpGroup acc lab v).map Prod.fst).Nodup := by
  intro acc
  induction acc with
  | nil => intro lab v _; simp [Client.bumpGroup]
  | cons p rest ih =>
    intro lab v hnd
    obtain ⟨l, t⟩ := p
    have hnd' : l ∉ rest.map Prod.fst ∧ (rest.map Prod.fst).Nodup :=
      List.nodup_cons.mp (by simpa using hnd)
    by_cases hl : l = lab
    · subst hl
      have hstep : Client.bumpGroup ((l, t) :: rest) l v =
          (l, jadd (if jTruthy t then t else jfin 0) v) :: rest := by
        simp [Client.bumpGroup]
      rw [hstep, List.map_cons]
      exact List.nodup_cons.mpr hnd'
    · have hstep : Client.bumpGroup ((l, t) :: rest) lab v =
          (l, t) :: Client.bumpGroup rest lab v := by
        simp [Client.bumpGroup, hl]
      rw [hstep, List.map_cons]
      refine List.nodup_cons.mpr ⟨?_, ih lab v hnd'.2⟩
      intro hmem
      rcases (bumpGroup_keys_mem rest lab v l).mp hmem with h | h
      · exact hnd'.1 h
      · exact hl h

/-- A lookup hit is a member. -/
theorem groupVal_mem :
    ∀ (acc : List (String × JNum)) (lab : String) (s : JNum),
      groupVal acc lab = some s → (lab, s) ∈ acc := by
  intro acc
  induction acc with
  | nil => intro lab s h; simp [groupVal] at h
  | cons p rest ih =>
    intro lab s h
    obtain ⟨l, t⟩ := p
    by_cases hl : l = lab
    · subst hl
      simp [groupVal] at h
      subst h
      exact List.mem_cons_self _ _
    · simp [groupVal, hl] at h
      exact List.mem_cons_of_mem _ (ih lab s h)

/-- A lookup misses exactly the absent keys. -/
theorem groupVal_none_iff :
    ∀ (acc : List (String × JNum)) (lab : String),
      groupVal acc lab = none ↔ lab ∉ acc.map Prod.fst := by
  intro acc
  induction acc with
  | nil => intro lab; simp [groupVal]
  | cons p rest ih =>
    intro lab
    obtain ⟨l, t⟩ := p
    by_cases hl : l = lab
    · subst hl; simp [groupVal]
    · simp [groupVal, hl, ih lab, Ne.symm hl]

/-- With distinct keys, membership determines the lookup. -/
theorem groupVal_of_mem_nodup :
    ∀ (acc : List (String × JNum)) (lab : String) (v : JNum),
      (acc.map Prod.fst).Nodup → (lab, v) ∈ acc →
      groupVal acc lab = some v := by
  intro acc
  induction acc with
  | nil => intro lab v _ h; simp at h
  | cons p rest ih =>
    intro lab v hnd hmem
    obtain ⟨l, t⟩ := p
    have hnd' : l ∉ rest.map Prod.fst ∧ (rest.map Prod.fst).Nodup :=
      List.nodup_cons.mp (by simpa using hnd)
    rcases List.mem_cons.mp hmem with h | h
    · obtain ⟨rfl, rfl⟩ := Prod.mk.inj h
      simp [groupVal]
    · by_cases hl : l = lab
      · subst hl
        exact absurd (List.mem_map_of_mem Prod.fst h) hnd'.1
      · simp only [groupVal, if_neg hl]
        exact ih lab v hnd'.2 h

/-- Unfolding `sumStockQ` over a cons cell. -/
theorem sumStockQ_cons (it : Client.CItem) (rest : List Client.CItem)
    (lab : String) :
    sumStockQ (it :: rest) lab =
      (if Client.labelOf it = lab then (it.stock).getD 0 else 0) +
        sumStockQ rest lab := by
  by_cases h : Client.labelOf it = lab <;>
    simp [sumStockQ, List.filter_cons, h]

/-- The grouping fold over a key already present with a finite value adds
exactly the per-label stock total. -/
theorem groupVal_foldl_some :
    ∀ (items : List Client.CItem) (acc : List (String × JNum)) (lab : String)
      (qs : ℚ),
      (∀ it ∈ items, (it.stock).isSome = true) →
      (∀ p ∈ acc, (p.2).isSome = true) →
      groupVal acc lab = some (some qs) →
      groupVal (items.foldl
          (fun a it => Client.bumpGroup a (Client.labelOf it) it.stock) acc)
          lab =
        some (some (qs + sumStockQ items lab)) := by
  intro items
  induction items with
  | nil =>
    intro acc lab qs _ _ hval
    simpa [sumStockQ] using hval
  | cons it rest ih =>
    intro acc lab qs hstocks hacc hval
    have hstock : (it.stock).isSome = true :=
      hstocks it (List.mem_cons_self it rest)
    obtain ⟨qv, hqv⟩ := Option.isSome_iff_exists.mp hstock
    have hacc' : ∀ p ∈ Client.bumpGroup acc (Client.labelOf it) it.stock,
        (p.2).isSome = true := bumpGroup_finite acc _ _ hacc hstock
    have hrest : ∀ x ∈ rest, (x.stock).isSome = true :=
      fun x hx => hstocks x (List.mem_cons_of_mem it hx)
    by_cases hl : Client.labelOf it = lab
    · subst hl
      have hbump := bumpGroup_hit_some acc (Client.labelOf it) it.stock
        (some qs) hval
      rw [truthyOr0_finite qs] at hbump
      have hbump' : groupVal
          (Client.bumpGroup acc (Client.labelOf it) it.stock)
          (Client.labelOf it) = some (some (qs + qv)) := by
        simpa [hqv, jadd] using hbump
      have := ih (Client.bumpGroup acc (Client.labelOf it) it.stock)
        (Client.labelOf it) (qs + qv) hrest hacc' hbump'
      rw [List.foldl_cons, this, sumStockQ_cons]
      simp [hqv, add_assoc]
    · have hbump : groupVal
          (Client.bumpGroup acc (Client.labelOf it) it.stock) lab =
          some (some qs) := by
        rw [bumpGroup_frame acc _ _ lab (fun h => hl h.symm)]
        exact hval
      have := ih (Client.bumpGroup acc (Client.labelOf it) it.stock) lab qs
        hrest hacc' hbump
      rw [List.foldl_cons, this, sumStockQ_cons]
      simp [hl]

/-- The grouping fold over an absent key produces exactly the per-label
stock total when the label occurs, and nothing otherwise. -/
theorem groupVal_foldl_none :
    ∀ (items : List Client.CItem) (acc : List (String × JNum)) (lab : String),
      (∀ it ∈ items, (it.stock).isSome = true) →
      (∀ p ∈ acc, (p.2).isSome = true) →
      groupVal acc lab = none →
      groupVal (items.foldl
          (fun a it => Client.bumpGroup a (Client.labelOf it) it.stock) acc)
          lab =
        (if lab ∈ items.map Client.labelOf
          then some (some (sumStockQ items lab)) else none) := by
  intro items
  induction items with
  | nil =>
    intro acc lab _ _ hval
    simpa using hval
  | cons it rest ih =>
    intro acc lab hstocks hacc hval
    have hstock : (it.stock).isSome = true :=
      hstocks it (List.mem_cons_self it rest)
    obtain ⟨qv, hqv⟩ := Option.isSome_iff_exists.mp hstock
    have hacc' : ∀ p ∈ Client.bumpGroup acc (Client.labelOf it) it.stock,
        (p.2).isSome = true := bumpGroup_finite acc _ _ hacc hstock
    have hrest : ∀ x ∈ rest, (x.stock).isSome = true :=
      fun x hx => hstocks x (List.mem_cons_of_mem it hx)
    by_cases hl : Client.labelOf it = lab
    · subst hl
      have hbump := bumpGroup_hit_none acc (Client.labelOf it) it.stock hval
      have hbump' : groupVal
          (Client.bumpGroup acc (Client.labelOf it) it.stock)
          (Client.labelOf it) = some (some (0 + qv)) := by
        simpa [hqv, jadd, jfin] using hbump
      have := groupVal_foldl_some rest
        (Client.bumpGroup acc (Client.labelOf it) it.stock)
        (Client.labelOf it) (0 + qv) hrest hacc' hbump'
      rw [List.foldl_cons, this, sumStockQ_cons]
      simp [hqv, add_assoc]
    · have hbump : groupVal
          (Client.bumpGroup acc (Client.labelOf it) it.stock) lab = none := by
        rw [bumpGroup_frame acc _ _ lab (fun h => hl h.symm)]
        exact hval
      have := ih (Client.bumpGroup acc (Client.labelOf it) it.stock) lab
        hrest hacc' hbump
      rw [List.foldl_cons, this, sumStockQ_cons]
      simp [hl, Ne.symm hl]

/-- The grouped per-category totals: present exactly for occurring labels
and carrying the per-label stock sum. -/
theorem groupedStock_spec (items : List Client.CItem)
    (hstocks : ∀ it ∈ items, (it.stock).isSome = true) (lab : String) :
    groupVal (Client.groupedStock items) lab =
      (if lab ∈ items.map Client.labelOf
        then some (some (sumStockQ items lab)) else none) :=
  groupVal_foldl_none items [] lab hstocks (by simp) rfl

/-- The grouped keys have no duplicates. -/
theorem groupedStock_keys_nodup (items : List Client.CItem) :
    ((Client.groupedStock items).map Prod.fst).Nodup := by
  suffices h : ∀ (acc : List (String × JNum)),
      (acc.map Prod.fst).Nodup →
      ((items.foldl
        (fun a it => Client.bumpGroup a (Client.labelOf it) it.stock)
        acc).map Prod.fst).Nodup by
    exact h [] (by simp)
  induction items with
  | nil => intro acc h; simpa using h
  | cons it rest ih =>
    intro acc h
    exact ih _ (bumpGroup_keys_nodup acc _ _ h)

/-- The grouped values are all finite when the stocks are. -/
theorem groupedStock_vals_finite (items : List Client.CItem)
    (hstocks : ∀ it ∈ items, (it.stock).isSome = true) :
    ∀ p ∈ Client.groupedStock items, (p.2).isSome = true := by
  suffices h : ∀ (acc : List (String × JNum)),
      (∀ it ∈ items, (it.stock).isSome = true) →
      (∀ p ∈ acc, (p.2).isSome = true) →
      ∀ p ∈ items.foldl
        (fun a it => Client.bumpGroup a (Client.labelOf it) it.stock) acc,
        (p.2).isSome = true by
    exact h [] hstocks (by simp)
  clear hstocks
  induction items with
  | nil => intro acc _ hacc; simpa using hacc
  | cons it rest ih =>
    intro acc hstocks hacc
    exact ih _ (fun x hx => hstocks x (List.mem_cons_of_mem it hx))
      (bumpGroup_finite acc _ _ hacc (hstocks it (List.mem_cons_self it rest)))

/-- `insertDesc` inserts, up to permutation. -/
theorem insertDesc_perm (x : String × JNum) :
    ∀ l : List (String × JNum), (Client.insertDesc x l).Perm (x :: l) := by
  intro l
  induction l with
  | nil => simp [Client.insertDesc]
  | cons y ys ih =>
    by_cases h : jlt y.2 x.2 = true
    · simp [Client.insertDesc, h]
    · have h' : jlt y.2 x.2 = false := by simpa using h
      simp only [Client.insertDesc, h', Bool.false_eq_true, if_false]
      exact (ih.cons y).trans (List.Perm.swap x y ys)

/-- `sortDesc` permutes its input. -/
theorem sortDesc_perm :
    ∀ l : List (String × JNum), (Client.sortDesc l).Perm l := by
  intro l
  induction l with
  | nil => simp [Client.sortDesc]
  | cons x xs ih =>
    exact (insertDesc_perm x (Client.sortDesc xs)).trans (ih.cons x)

/-- `insertDesc` preserves the descending-by-value pairwise order. -/
theorem insertDesc_pairwise (x : String × JNum) :
    ∀ l : List (String × JNum),
      l.Pairwise (fun a b => jlt a.2 b.2 = false) →
      (Client.insertDesc x l).Pairwise (fun a b => jlt a.2 b.2 = false) := by
  intro l
  induction l with
  | nil => intro _; simp [Client.insertDesc]
  | cons y ys ih =>
    intro hp
    have hpy : ∀ z ∈ ys, jlt y.2 z.2 = false := fun z hz =>
      (List.pairwise_cons.mp hp).1 z hz
    have hys : ys.Pairwise (fun a b => jlt a.2 b.2 = false) :=
      (List.pairwise_cons.mp hp).2
    by_cases h : jlt y.2 x.2 = true
    · obtain ⟨qy, qx, hqy, hqx, hlt⟩ :
          ∃ qy qx : ℚ, y.2 = some qy ∧ x.2 = some qx ∧ qy < qx := by
        rcases hy2 : y.2 with _ | qy <;> rcases hx2 : x.2 with _ | qx <;>
          simp [hy2, hx2, jlt] at h ⊢
        exact h
      rw [Client.insertDesc, if_pos h]
      refine List.pairwise_cons.mpr ⟨?_, hp⟩
      intro z hz
      rcases List.mem_cons.mp hz with rfl | hz'
      · simp [jlt, hqy, hqx]
        linarith
      · rcases hz2 : z.2 with _ | qz
        · simp [jlt, hqx, hz2]
        · have := hpy z hz'
          rw [hqy, hz2] at this
          simp [jlt] at this
          simp [jlt, hqx, hz2]
          linarith
    · have h' : jlt y.2 x.2 = false := by simpa using h
      rw [Client.insertDesc, if_neg (by simp [h'])]
      refine List.pairwise_cons.mpr ⟨?_, ih hys⟩
      intro z hz
      rcases List.mem_cons.mp ((insertDesc_perm x ys).mem_iff.mp hz)
        with rfl | hz'
      · exact h'
      · exact hpy z hz'

/-- `sortDesc` sorts descending by value. -/
theorem sortDesc_pairwise :
    ∀ l : List (String × JNum),
      (Client.sortDesc l).Pairwise (fun a b => jlt a.2 b.2 = false) := by
  intro l
  induction l with
  | nil => simp [Client.sortDesc]
  | cons x xs ih => exact insertDesc_pairwise x (Client.sortDesc xs) ih

/-- `withColors` only decorates: projecting the label/value pairs gives
back the input. -/
theorem withColors_proj :
    ∀ (l : List (String × JNum)) (i : Nat),
      (Client.withColors i l).map (fun s => (s.label, s.value)) = l := by
  intro l
  induction l with
  | nil => intro i; simp [Client.withColors]
  | cons p rest ih =>
    intro i
    obtain ⟨a, b⟩ := p
    simp [Client.withColors, ih (i + 1)]

/-- Positional description of `withColors`. -/
theorem withColors_get :
    ∀ (l : List (String × JNum)) (i k : Nat),
      (Client.withColors i l).get? k = (l.get? k).map
        (fun p => ⟨p.1, p.2,
          Client.chartPalette.getD ((i + k) % Client.chartPalette.length) ""⟩) := by
  intro l
  induction l with
  | nil => intro i k; simp [Client.withColors]
  | cons p rest ih =>
    intro i k
    obtain ⟨a, b⟩ := p
    cases k with
    | zero => simp [Client.withColors]
    | succ k =>
      simp only [Client.withColors, List.get?_cons_succ, ih (i + 1) k]
      have : i + 1 + k = i + (k + 1) := by omega
      rw [this]

/-! ## C7 -/

/-- C7: over any item list with finite stocks, the category segments have
pairwise-distinct labels; every item's label (empty category mapped to
"Uncategorized") appears; each segment's label comes from some item and
its value is exactly the stock total of that label's items; the segments
are sorted descending by value (stably, so JS's stable sort yields this
very order); the segment at rank `k` wears the palette color at
`k mod palette-length`; and the spec's concrete example yields segments
`[(A, 8), (B, 2)]` with the first two palette colors. -/
theorem c7_category_grouping :
    (∀ items : List Client.CItem,
      (∀ it ∈ items, (it.stock).isSome = true) →
      ((Client.categorySegments items).map Client.Segment.label).Nodup ∧
      (∀ it ∈ items, Client.labelOf it ∈
        (Client.categorySegments items).map Client.Segment.label) ∧
      (∀ s ∈ Client.categorySegments items,
        s.label ∈ items.map Client.labelOf ∧
        s.value = some (sumStockQ items s.label)) ∧
      (Client.categorySegments items).Pairwise
        (fun a b => jlt a.value b.value = false) ∧
      (∀ (k : Nat) (s : Client.Segment),
        (Client.categorySegments items).get? k = some s →
        s.color = Client.chartPalette.getD
          (k % Client.chartPalette.length) "")) ∧
    (Client.categorySegments exampleItems).map (fun s => (s.label, s.value)) =
      [("A", jfin 8), ("B", jfin 2)] ∧
    (Client.categorySegments exampleItems).map Client.Segment.color =
      ["#561C24", "#6D2932"] := by
  refine ⟨?_, ?_, ?_⟩
  · intro items hstocks
    have hseg : Client.categorySegments items =
        Client.withColors 0 (Client.sortDesc (Client.groupedStock items)) := rfl
    have hproj : (Client.categorySegments items).map
        (fun s => (s.label, s.value)) =
        Client.sortDesc (Client.groupedStock items) := by
      rw [hseg]; exact withColors_proj _ 0
    have hlabels : (Client.categorySegments items).map Client.Segment.label =
        (Client.sortDesc (Client.groupedStock items)).map Prod.fst := by
      have := congrArg (List.map Prod.fst) hproj
      simpa [List.map_map, Function.comp] using this
    have hperm : (Client.sortDesc (Client.groupedStock items)).Perm
        (Client.groupedStock items) := sortDesc_perm _
    have hkeysperm : ((Client.sortDesc (Client.groupedStock items)).map
        Prod.fst).Perm ((Client.groupedStock items).map Prod.fst) :=
      hperm.map Prod.fst
    refine ⟨?_, ?_, ?_, ?_, ?_⟩
    · rw [hlabels]
      exact hkeysperm.nodup_iff.mpr (groupedStock_keys_nodup items)
    · intro it hit
      rw [hlabels]
      rw [List.Perm.mem_iff hkeysperm]
      by_contra habs
      have hnone : groupVal (Client.groupedStock items)
          (Client.labelOf it) = none :=
        (groupVal_none_iff _ _).mpr habs
      rw [groupedStock_spec items hstocks] at hnone
      simp [List.mem_map_of_mem Client.labelOf hit] at hnone
    · intro s hs
      have hpair : (s.label, s.value) ∈
          Client.sortDesc (Client.groupedStock items) := by
        rw [← hproj]
        exact List.mem_map_of_mem (fun s => (s.label, s.value)) hs
      have hmem : (s.label, s.value) ∈ Client.groupedStock items :=
        hperm.mem_iff.mp hpair
      have hval : groupVal (Client.groupedStock items) s.label =
          some s.value :=
        groupVal_of_mem_nodup _ _ _ (groupedStock_keys_nodup items) hmem
      rw [groupedStock_spec items hstocks] at hval
      by_cases hlab : s.label ∈ items.map Client.labelOf
      · rw [if_pos hlab] at hval
        exact ⟨hlab, (Option.some_inj.mp hval).symm⟩
      · rw [if_neg hlab] at hval
        cases hval
    · have hsorted := sortDesc_pairwise (Client.groupedStock items)
      rw [← hproj] at hsorted
      exact List.pairwise_map.mp hsorted
    · intro k s hk
      rw [hseg, withColors_get _ 0 k] at hk
      rcases hget : (Client.sortDesc (Client.groupedStock items)).get? k with
        _ | p
      · rw [hget] at hk; cases hk
      · rw [hget] at hk
        have := Option.some_inj.mp hk
        subst this
        simp
  · norm_num [Client.categorySegments, Client.groupedStock, Client.bumpGroup,
      Client.labelOf, Client.sortDesc, Client.insertDesc, Client.withColors,
      exampleItems, jadd, jfin, jTruthy, jlt] <;> decide
  · norm_num [Client.categorySegments, Client.groupedStock, Client.bumpGroup,
      Client.labelOf, Client.sortDesc, Client.insertDesc, Client.withColors,
      exampleItems, Client.chartPalette, jadd, jfin, jTruthy, jlt] <;> decide

/-- C7 witness: the general grouping properties instantiated on the
concrete example list. -/
theorem c7_category_grouping_witness :
    ((Client.categorySegments exampleItems).map Client.Segment.label).Nodup ∧
    (∀ it ∈ exampleItems, Client.labelOf it ∈
      (Client.categorySegments exampleItems).map Client.Segment.label) ∧
    (∀ s ∈ Client.categorySegments exampleItems,
      s.label ∈ exampleItems.map Client.labelOf ∧
      s.value = some (sumStockQ exampleItems s.label)) ∧
    (Client.categorySegments exampleItems).Pairwise
      (fun a b => jlt a.value b.value = false) ∧
    (∀ (k : Nat) (s : Client.Segment),
      (Client.categorySegments exampleItems).get? k = some s →
      s.color = Client.chartPalette.getD
        (k % Client.chartPalette.length) "") :=
  c7_category_grouping.1 exampleItems (by decide)

/-! ## C8 -/

/-- `round` of a non-negative rational is non-negative. -/
theorem round_nonneg_q {q : ℚ} (h : 0 ≤ q) : (0 : ℤ) ≤ round q := by
  rw [round_eq]
  exact Int.le_floor.mpr (by push_cast; linarith)

/-- For a finite non-negative stock, the `Math.max(0, ·)` clamp around the
rounded projected units is the identity. -/
theorem jmax0_round_stock {stock : JNum} {q : ℚ} (hq : stock = jfin q)
    (h0 : 0 ≤ q) :
    jmax0 (jround (jmul stock (jfin 0.28))) =
      jround (jmul stock (jfin 0.28)) := by
  subst hq
  have hr : (0 : ℤ) ≤ round (q * 0.28) := round_nonneg_q (by positivity)
  have hr' : (0 : ℚ) ≤ ((round (q * 0.28) : ℤ) : ℚ) := by exact_mod_cast hr
  simp [jmul, jround, jmax0, jmax, jfin, max_eq_right hr']

/-- The two estimated-sales folds agree term by term on non-negative
finite stocks, hence altogether. -/
theorem estimatedSales_eq_spec :
    ∀ (items : List Client.CItem),
      (∀ it ∈ items, ∃ q : ℚ, it.stock = jfin q ∧ 0 ≤ q) →
      ∀ acc : JNum,
        items.foldl (fun sum it =>
          jadd sum (jmul (Client.sellingPriceOf it)
            (jmax0 (jround (jmul it.stock (jfin 0.28)))))) acc =
        items.foldl (fun sum it =>
          jadd sum (jmul (Client.sellingPriceOf it)
            (jround (jmul it.stock (jfin 0.28))))) acc := by
  intro items
  induction items with
  | nil => intro _ acc; rfl
  | cons it rest ih =>
    intro h acc
    obtain ⟨q, hq, h0⟩ := h it (List.mem_cons_self it rest)
    have hclamp := jmax0_round_stock hq h0
    simp only [List.foldl_cons, hclamp]
    exact ih (fun x hx => h x (List.mem_cons_of_mem it hx)) _

/-- Positional description of the month rows. -/
theorem monthRows_get :
    ∀ (ms : List String) (i k : Nat) (est : JNum),
      (Client.monthRows i ms est).get? k =
        (ms.get? k).map (fun m => (m, Client.salesMonthValue est (i + k))) := by
  intro ms
  induction ms with
  | nil => intro i k est; simp [Client.monthRows]
  | cons m ms ih =>
    intro i k est
    cases k with
    | zero => simp [Client.monthRows]
    | succ k =>
      simp only [Client.monthRows, List.get?_cons_succ, ih (i + 1) k est]
      have : i + 1 + k = i + (k + 1) := by omega
      rw [this]

/-- C8: on every item list drawn from the data model (finite,
non-negative stocks), the trend pipeline equals the spec formula exactly:
the code's estimated sales (which carry a redundant `Math.max(0, ·)`
clamp) coincide with `Σ sellingPrice × round(stock × 0.28)`, and the
monthly sales, expense and profit rows coincide with the spec-modelled
rows; the row at index `k` carries
`round((estimatedSales / 6) × (0.72 + k × 0.1))`. -/
theorem c8_trend_matches_spec_formula :
    ∀ items : List Client.CItem,
      (∀ it ∈ items, ∃ q : ℚ, it.stock = jfin q ∧ 0 ≤ q) →
      Client.estimatedSales items = Client.specEstimatedSales items ∧
      Client.salesByMonth items = Client.specSalesByMonth items ∧
      Client.expenseByMonth items = Client.specExpenseByMonth items ∧
      Client.profitByMonth items = Client.specProfitByMonth items ∧
      (∀ k : Nat, (Client.salesByMonth items).get? k =
        (Client.monthLabels.get? k).map
          (fun m => (m, Client.salesMonthValue (Client.estimatedSales items) k))) := by
  intro items h
  have hest : Client.estimatedSales items = Client.specEstimatedSales items :=
    estimatedSales_eq_spec items h (jfin 0)
  have hsales : Client.salesByMonth items = Client.specSalesByMonth items := by
    unfold Client.salesByMonth Client.specSalesByMonth
    rw [hest]
  have hexp : Client.expenseByMonth items = Client.specExpenseByMonth items := by
    unfold Client.expenseByMonth Client.specExpenseByMonth
    rw [hsales]
  refine ⟨hest, hsales, hexp, ?_, ?_⟩
  · unfold Client.profitByMonth Client.specProfitByMonth
    rw [hsales, hexp]
  · intro k
    have := monthRows_get Client.monthLabels 0 k (Client.estimatedSales items)
    simpa [Client.salesByMonth] using this

/-- C8 witness: the code pipeline and the spec formula agree on the
concrete one-item list with stock `24` and selling price `450`. -/
theorem c8_trend_matches_spec_formula_witness :
    Client.estimatedSales trendItems = Client.specEstimatedSales trendItems ∧
    Client.salesByMonth trendItems = Client.specSalesByMonth trendItems ∧
    Client.expenseByMonth trendItems = Client.specExpenseByMonth trendItems ∧
    Client.profitByMonth trendItems = Client.specProfitByMonth trendItems := by
  have h := c8_trend_matches_spec_formula trendItems
    (by
      intro it hit
      simp only [trendItems, List.mem_singleton] at hit
      exact ⟨24, by simp [hit], by norm_num⟩)
  exact ⟨h.1, h.2.1, h.2.2.1, h.2.2.2.1⟩

/-! ## C5 -/

/-- Fields absent from the body resolve to the prior record's values. -/
theorem validateA_frame {body : Body} {cur : Item} {n : NormItem}
    (h : ServerA.validateAndNormalizeItem body (some cur) false = .ok n) :
    (body.name = none → n.name = cur.name) ∧
    (body.brand = none → n.brand = cur.brand) ∧
    (body.category = none → n.category = cur.category) ∧
    (body.stock = none → n.stock = cur.stock) ∧
    (body.rawPrice = none → n.rawPrice = cur.rawPrice) ∧
    (body.sellingPrice = none → body.price = none →
      n.sellingPrice = cur.sellingPrice) ∧
    (body.minStockAlert = none → n.minStockAlert = cur.minStockAlert) := by
  obtain ⟨-, -, hn⟩ := validateA_ok_eq h
  subst hn
  refine ⟨fun hf => ?_, fun hf => ?_, fun hf => ?_, fun hf => ?_, fun hf => ?_,
    fun hf hg => ?_, fun hf => ?_⟩
  · simp [ServerA.resolvedName, hf]
  · simp [ServerA.resolvedBrand, hf]
  · simp [ServerA.resolvedCategory, hf]
  · simp [ServerA.resolvedStock, hf]
  · simp [ServerA.resolvedRawPrice, hf]
  · simp [ServerA.resolvedSellingPrice, hf, hg]
  · simp [ServerA.resolvedMinStockAlert, hf]

/-- PUT on the first id match replaces the record in place with the
merge. -/
theorem putItem_found :
    ∀ (pre : List Item) (cur : Item) (post : List Item) (pid : JNum)
      (body : Body) (n : NormItem),
      (∀ it ∈ pre, jeqNum it.id pid = false) →
      jeqNum cur.id pid = true →
      ServerA.validateAndNormalizeItem body (some cur) false = .ok n →
      ServerA.putItem (pre ++ cur :: post) pid body =
        (pre ++ ServerA.mergeItem cur n :: post,
          ServerA.PutResult.updated
            (buildItemResponse (ServerA.mergeItem cur n))) := by
  intro pre
  induction pre with
  | nil =>
    intro cur post pid body n _ hcur hok
    simp [ServerA.putItem, hcur, hok]
  | cons p ps ih =>
    intro cur post pid body n hpre hcur hok
    have h1 : jeqNum p.id pid = false := hpre p (List.mem_cons_self p ps)
    have h2 := ih cur post pid body n
      (fun x hx => hpre x (List.mem_cons_of_mem p hx)) hcur hok
    simp [ServerA.putItem, h1, h2]

/-- C5: a partial update of an existing item keeps every field the body
does not supply at its prior value, keeps the item's id and its position
in the stored order (the id sequence is unchanged), and a PUT whose id
matches nothing answers 404 with the store untouched. -/
theorem c5_partial_update_frame :
    (∀ (body : Body) (cur : Item) (n : NormItem),
      ServerA.validateAndNormalizeItem body (some cur) false = .ok n →
      (body.name = none → n.name = cur.name) ∧
      (body.brand = none → n.brand = cur.brand) ∧
      (body.category = none → n.category = cur.category) ∧
      (body.stock = none → n.stock = cur.stock) ∧
      (body.rawPrice = none → n.rawPrice = cur.rawPrice) ∧
      (body.sellingPrice = none → body.price = none →
        n.sellingPrice = cur.sellingPrice) ∧
      (body.minStockAlert = none → n.minStockAlert = cur.minStockAlert)) ∧
    (∀ (pre : List Item) (cur : Item) (post : List Item) (pid : JNum)
      (body : Body) (n : NormItem),
      (∀ it ∈ pre, jeqNum it.id pid = false) →
      jeqNum cur.id pid = true →
      ServerA.validateAndNormalizeItem body (some cur) false = .ok n →
      ServerA.putItem (pre ++ cur :: post) pid body =
        (pre ++ ServerA.mergeItem cur n :: post,
          ServerA.PutResult.updated
            (buildItemResponse (ServerA.mergeItem cur n))) ∧
      (ServerA.mergeItem cur n).id = cur.id ∧
      (pre ++ ServerA.mergeItem cur n :: post).map Item.id =
        (pre ++ cur :: post).map Item.id) ∧
    (∀ (inv : List Item) (pid : JNum) (body : Body),
      (∀ it ∈ inv, jeqNum it.id pid = false) →
      ServerA.putItem inv pid body = (inv, ServerA.PutResult.notFound)) := by
  refine ⟨fun body cur n h => validateA_frame h, ?_, putItem_unmatched⟩
  intro pre cur post pid body n hpre hcur hok
  exact ⟨putItem_found pre cur post pid body n hpre hcur hok, rfl,
    by simp [ServerA.mergeItem]⟩

/-- C5 witness: updating only `stock` on a one-item store keeps every
other field, the id and the order, and an unmatched id answers 404. -/
theorem c5_partial_update_frame_witness :
    (demoStockNorm.name = demoItem.name ∧
      demoStockNorm.rawPrice = demoItem.rawPrice ∧
      demoStockNorm.sellingPrice = demoItem.sellingPrice ∧
      demoStockNorm.minStockAlert = demoItem.minStockAlert) ∧
    ServerA.putItem [demoItem] (jfin 7) bodyStockOnly =
      ([ServerA.mergeItem demoItem demoStockNorm],
        ServerA.PutResult.updated
          (buildItemResponse (ServerA.mergeItem demoItem demoStockNorm))) ∧
    (ServerA.mergeItem demoItem demoStockNorm).id = demoItem.id ∧
    ServerA.putItem [demoItem] (jfin 99) bodyStockOnly =
      ([demoItem], ServerA.PutResult.notFound) := by
  have hfr := c5_partial_update_frame.1 bodyStockOnly demoItem demoStockNorm rfl
  have hup := c5_partial_update_frame.2.1 [] demoItem [] (jfin 7) bodyStockOnly
    demoStockNorm (by simp) (by decide) rfl
  refine ⟨⟨hfr.1 rfl, hfr.2.2.2.2.1 rfl, hfr.2.2.2.2.2.1 rfl rfl,
    hfr.2.2.2.2.2.2 rfl⟩, ?_, hup.2.1,
    c5_partial_update_frame.2.2 [demoItem] (jfin 99) bodyStockOnly (by decide)⟩
  simpa using hup.1


end Vape
